import Mathlib

/-!
# Study-Plan-Scheduler: the schedule expander of `pages/Schedules.jsx`

A shallow embedding of the `queryFn` of the schedules query
(`src/scheduler-frontend/src/pages/Schedules.jsx`, lines 67-108) and of the
helpers it calls, followed by theorems about it. The other handlers of that page, the
axios interceptors of `api.js`, the error handler of `pages/SignIn.jsx` and the
preference dialog of `pages/Settings.jsx` follow, each under its own heading.

Modelling conventions.

* An instant (a JavaScript `Date`) is its epoch time in milliseconds, an `Int`.
  All instants are taken to lie inside the range a `Date` can hold, so no
  `Invalid Date` arises.
* A string produced by `formatISO` is represented by the instant it denotes.
* An optional JSON field is an `Option String`; `none` stands for `undefined`
  and `null`. JavaScript truthiness of such a field is `truthy?`.
* The `rrule` package is a parameter (`RRuleLib`): the embedding fixes neither
  its grammar nor its calendar arithmetic. Both `RRule.fromString` and the
  enumeration of a parsed rule may throw.
* The local time zone is a parameter (`TimeZone`): its offset from UTC may change
  from one instant to the next, as it does at a clock change.
-/

namespace Schedules

/-- A schedule record as the page receives it from `getSchedulesByUser`. -/
structure Schedule where
  id : String
  description : Option String
  startTime : Int
  endTime : Int
  recurrenceRule : Option String
  deriving DecidableEq

/-- The `extendedProps` object of a calendar event. -/
structure ExtendedProps where
  type : String
  deriving DecidableEq

/-- A calendar event as built by `queryFn`. The field `end_` is the source's `end`;
`start` and `end_` hold the instants denoted by the ISO strings. -/
structure CalendarEvent where
  title : String
  start : Int
  end_ : Int
  id : String
  backgroundColor : String
  borderColor : String
  extendedProps : ExtendedProps
  deriving DecidableEq

/-- The part of the `rrule` package the page uses. `fromString` is
`RRule.fromString`, with `none` for a thrown exception; `all rule` lists every
instant the parsed rule generates, in the order the package yields them, with `none`
when enumerating the rule throws (as it does for a rule that parsed with a time zone
name the platform does not know). A rule without `DTSTART` is anchored by the package at
the time of parsing, so an instance of this structure also fixes the clock. -/
structure RRuleLib (ρ : Type) where
  fromString : String → Option ρ
  all : ρ → Option (List Int)

/-- The method `rrule.between(after, before, inc)`: the generated instants between
`after` and `before`; with `inc` the two bounds themselves are included. The call throws
(`none`) when enumerating the rule throws. -/
def RRuleLib.between {ρ : Type} (lib : RRuleLib ρ) (rule : ρ) (after before : Int)
    (inc : Bool) : Option (List Int) :=
  (lib.all rule).map fun series =>
    series.filter fun d =>
      if inc then decide (after ≤ d) && decide (d ≤ before)
      else decide (after < d) && decide (d < before)

/-- JavaScript truthiness of an optional string field: the value when it is
present and not the empty string. -/
def truthy? (v : Option String) : Option String :=
  match v with
  | some x => if x = "" then none else some x
  | none => none

/-- The record passes the test `schedule.recurrenceRule ? … : …`. -/
def hasRule (schedule : Schedule) : Bool :=
  (truthy? schedule.recurrenceRule).isSome

/-- The function `formatISO` of date-fns: local date and time to the second, followed
by the zone offset. The result is represented by the instant it denotes, which is
the argument with its millisecond component dropped. -/
def formatISO (date : Int) : Int :=
  date - date % 1000

/-- The template string of the composite identifier, with a dash between the
record id and the epoch milliseconds of the occurrence. -/
def occurrenceId (baseId : String) (occurrence : Int) : String :=
  baseId ++ "-" ++ toString occurrence

/-- The message passed to `setError` in the `catch` block. -/
def invalidRulesMessage : String :=
  "Some schedules have invalid recurrence rules. Please clear invalid schedules or regenerate the study plan."

/-- The message passed to `console.error` in the `catch` block. -/
def parseFailureLog (schedule : Schedule) (rule : String) : String :=
  "Failed to parse recurrence rule for schedule " ++ schedule.id ++ ": " ++ rule

/-- The object `baseEvent` built at the top of the `flatMap` callback. -/
def baseEvent (schedule : Schedule) : CalendarEvent :=
  { title := (truthy? schedule.description).getD "Study Session"
    start := formatISO schedule.startTime
    end_ := formatISO schedule.endTime
    id := schedule.id
    backgroundColor := if hasRule schedule then "#4CAF50" else "#2196F3"
    borderColor := if hasRule schedule then "#4CAF50" else "#2196F3"
    extendedProps := { type := if hasRule schedule then "auto" else "manual" } }

/-- The object returned by the callback of `occurrences.map`. -/
def occurrenceEvent (base : CalendarEvent) (durationMs : Int) (occurrence : Int) :
    CalendarEvent :=
  { base with
    start := formatISO occurrence
    end_ := formatISO (occurrence + durationMs)
    id := occurrenceId base.id occurrence }

/-- What one run of the `flatMap` callback does: the events it returns, the
`console.error` lines it writes and the `setError` calls it makes. -/
structure Emission where
  events : List CalendarEvent
  logged : List String
  errors : List String
  deriving DecidableEq

/-- The `flatMap` callback of `queryFn`, for one schedule. The `try` block holds the
call of `RRule.fromString`, the call of `rrule.between` and the `occurrences.map`; when
either call throws, the `catch` block logs, sets the page error and returns the base
event. The callback of the map builds dates and ISO texts from valid instants and
does not throw. -/
def expandSchedule {ρ : Type} (lib : RRuleLib ρ) (defaultStart defaultEnd : Int)
    (filterType : String) (schedule : Schedule) : Emission :=
  let base := baseEvent schedule
  match truthy? schedule.recurrenceRule, decide (filterType ≠ "manual") with
  | some text, true =>
    match lib.fromString text with
    | some rrule =>
      let durationMs := schedule.endTime - schedule.startTime
      match lib.between rrule defaultStart defaultEnd true with
      | some occurrences =>
        { events := occurrences.map (occurrenceEvent base durationMs)
          logged := []
          errors := [] }
      | none =>
        { events := [base]
          logged := [parseFailureLog schedule text]
          errors := [invalidRulesMessage] }
    | none =>
      { events := [base]
        logged := [parseFailureLog schedule text]
        errors := [invalidRulesMessage] }
  | _, _ =>
    { events := if filterType ≠ "auto" then [base] else []
      logged := []
      errors := [] }

/-- The events `queryFn` resolves to: the first 100 records, each expanded, in order. -/
def queryFn {ρ : Type} (lib : RRuleLib ρ) (defaultStart defaultEnd : Int)
    (filterType : String) (data : List Schedule) : List CalendarEvent :=
  (data.take 100).flatMap fun schedule =>
    (expandSchedule lib defaultStart defaultEnd filterType schedule).events

/-- The memoised `filteredEvents`: the events handed to the calendar. -/
def filteredEvents (filterType : String) (schedules : List CalendarEvent) :
    List CalendarEvent :=
  schedules.filter fun event =>
    if filterType = "all" then true else decide (event.extendedProps.type = filterType)

/-! ## A concrete instance of the rule package

The rule text `DTSTART:20240304T090000Z` / `RRULE:FREQ=WEEKLY;COUNT=3` carries its own
series start, so the instants it generates do not depend on the clock: Monday
2024-03-04 09:00:00 UTC (epoch 1709542800000 ms) and the two Mondays after it. -/

/-- A weekly rule with an explicit series start and an occurrence count. -/
structure WeeklyRule where
  dtstart : Int
  count : Nat
  deriving DecidableEq

/-- One week in milliseconds. -/
def weekMs : Int := 604800000

/-- The instants of a weekly series: `n` instants one week apart, the first at `a`. -/
def weeklySeries (a : Int) (n : Nat) : List Int :=
  (List.range n).map fun (k : Nat) => a + weekMs * (k : Int)

/-- The rule text used in the examples. -/
def mondayRule : String := "DTSTART:20240304T090000Z\nRRULE:FREQ=WEEKLY;COUNT=3"

/-- The behaviour of the rule package on `mondayRule`; every other text is rejected
by this instance. -/
def mondayLib : RRuleLib WeeklyRule where
  fromString text :=
    if text = mondayRule then some { dtstart := 1709542800000, count := 3 } else none
  all rule := some (weeklySeries rule.dtstart rule.count)

/-- The parsed form of `mondayRule`. -/
def mondaySeries : WeeklyRule := { dtstart := 1709542800000, count := 3 }

/-- A recurring record: one hour every Monday from 2024-03-04 09:00 UTC, three times. -/
def weeklyRecord : Schedule :=
  { id := "S1"
    description := none
    startTime := 1709542800000
    endTime := 1709546400000
    recurrenceRule := some mondayRule }

/-- A one-off record on 2024-03-07, 10:00 to 11:00 UTC. -/
def oneOffRecord : Schedule :=
  { id := "M1"
    description := some "Read chapter 3"
    startTime := 1709805600000
    endTime := 1709809200000
    recurrenceRule := none }

/-- A one-off record whose id is the id of `weeklyRecord`, a dash and the epoch
milliseconds of 2024-03-04 09:00 UTC. -/
def dashedRecord : Schedule :=
  { id := "S1-1709542800000"
    description := none
    startTime := 1709805600000
    endTime := 1709809200000
    recurrenceRule := none }

/-- A one-off record on 2024-04-15, 09:00 to 10:00 UTC. -/
def aprilRecord : Schedule :=
  { id := "M2"
    description := none
    startTime := 1713171600000
    endTime := 1713175200000
    recurrenceRule := none }

/-- The weekly record with an end half a second later: one hour and 500 ms long. -/
def halfSecondRecord : Schedule :=
  { weeklyRecord with endTime := 1709546400500 }

/-- Start of March 2024 in UTC. -/
def marchStart : Int := 1709251200000

/-- Start of April 2024 in UTC. -/
def aprilStart : Int := 1711929600000

/-- The second Monday occurrence, 2024-03-11 09:00 UTC. -/
def secondMonday : Int := 1710147600000

/-! ## Auxiliary definitions used in the statements and proofs -/

/-- The numeric value of a decimal digit character. -/
def digitValue (c : Char) : Nat := c.toNat - 48

/-- The number a list of decimal digit characters denotes. -/
def decimalValue (l : List Char) : Nat :=
  l.foldl (fun acc c => 10 * acc + digitValue c) 0

/-- The identifier `b` starts with the identifier `a` followed by a dash. -/
def extendsByDash (a b : String) : Bool :=
  (a ++ "-").data.isPrefixOf b.data

/-- The `setError` calls of one run of `queryFn`, in order. -/
def queryFnErrors {ρ : Type} (lib : RRuleLib ρ) (defaultStart defaultEnd : Int)
    (filterType : String) (data : List Schedule) : List String :=
  (data.take 100).flatMap fun schedule =>
    (expandSchedule lib defaultStart defaultEnd filterType schedule).errors

/-- The `console.error` lines of one run of `queryFn`, in order. -/
def queryFnLogged {ρ : Type} (lib : RRuleLib ρ) (defaultStart defaultEnd : Int)
    (filterType : String) (data : List Schedule) : List String :=
  (data.take 100).flatMap fun schedule =>
    (expandSchedule lib defaultStart defaultEnd filterType schedule).logged

/-- The text `part` occurs inside the text `message`. -/
def mentions (message part : String) : Prop :=
  part.data <:+: message.data

instance (message part : String) : Decidable (mentions message part) :=
  inferInstanceAs (Decidable (part.data <:+: message.data))

/-! ## The rule package at a given time of parsing

A rule text without `DTSTART` is anchored by the package at the time `RRule.fromString`
runs, with the milliseconds cleared (`new Date(new Date().setMilliseconds(0))`); a weekly
rule without `BYDAY` then repeats on the weekday and at the time of day of that anchor. -/

/-- A weekly rule text without a series start. -/
def plainWeeklyRule : String := "FREQ=WEEKLY;COUNT=3"

/-- A weekly rule text with its own series start and ten occurrences. -/
def tenMondaysRule : String := "DTSTART:20240304T090000Z\nRRULE:FREQ=WEEKLY;COUNT=10"

/-- The behaviour of the rule package, parsing at the instant `now`, on the three rule
texts of the examples; every other text (such as `INVALID`, which the package rejects
as an unknown property) is rejected by this instance. -/
def clockLib (now : Int) : RRuleLib WeeklyRule where
  fromString text :=
    if text = mondayRule then some { dtstart := 1709542800000, count := 3 }
    else if text = tenMondaysRule then some { dtstart := 1709542800000, count := 10 }
    else if text = plainWeeklyRule then some { dtstart := now - now % 1000, count := 3 }
    else none
  all rule := some (weeklySeries rule.dtstart rule.count)

/-- The record of the scenario: id `S1`, 2024-03-04 09:00 to 10:00 UTC, weekly, three
times, the rule text without a series start. -/
def scenarioRecord : Schedule :=
  { id := "S1"
    description := none
    startTime := 1709542800000
    endTime := 1709546400000
    recurrenceRule := some plainWeeklyRule }

/-- The weekly record with ten occurrences. -/
def tenWeeksRecord : Schedule :=
  { weeklyRecord with recurrenceRule := some tenMondaysRule }

/-- A record whose rule text the package rejects. -/
def malformedRecord : Schedule :=
  { id := "S2"
    description := some "Revise notes"
    startTime := 1709632800000
    endTime := 1709636400000
    recurrenceRule := some "INVALID" }

/-- A weekly record, a record with a rejected rule text and a one-off record. -/
def mixedRecords : List Schedule := [weeklyRecord, malformedRecord, oneOffRecord]

/-- The instant 2024-03-05 00:00 UTC. -/
def marchFifth : Int := 1709596800000

/-- The first Monday occurrence, 2024-03-04 09:00 UTC. -/
def firstMonday : Int := 1709542800000

/-- The instant 2024-03-10 12:00 UTC, a Sunday. -/
def sundayNoon : Int := 1710072000000

/-- The instant 2024-03-31 00:00 UTC. -/
def marchLast : Int := 1711843200000

/-! ## Click resolution (`pages/Schedules.jsx`, the `eventClick` handler) -/

/-- The expression `info.event.id.split('-')[0]`: the text before the first dash, the
whole id when it holds no dash. -/
def clickedBaseId (eventId : String) : String :=
  String.mk (eventId.data.takeWhile fun c => c != '-')

/-- The path the `eventClick` handler navigates to. -/
def eventClick (eventId : String) : String :=
  "/schedules/" ++ clickedBaseId eventId

/-- A one-off record whose id is a UUID. -/
def uuidRecord : Schedule :=
  { id := "123e4567-e89b-12d3-a456-426614174000"
    description := none
    startTime := 1709805600000
    endTime := 1709809200000
    recurrenceRule := none }

/-- The weekly record moved one day later, with the same rule text and duration. -/
def tuesdayRecord : Schedule :=
  { id := "S3"
    description := none
    startTime := 1709629200000
    endTime := 1709632800000
    recurrenceRule := some mondayRule }

/-! ## The filter state (`pages/Schedules.jsx`, `filterType`) -/

/-- What the user can do to the filter: press the toggle button or click one of the
three chips. -/
inductive FilterAction where
  | toggle
  | chipAuto
  | chipManual
  | chipAll
  deriving DecidableEq

/-- The initial value of `filterType`. -/
def initialFilter : String := "all"

/-- The state update each control passes to `setFilterType`. -/
def filterStep (prev : String) : FilterAction → String
  | FilterAction.toggle =>
    if prev = "all" then "auto" else if prev = "auto" then "manual" else "all"
  | FilterAction.chipAuto => "auto"
  | FilterAction.chipManual => "manual"
  | FilterAction.chipAll => "all"

/-- The filter after a sequence of presses and clicks, starting from the initial value. -/
def filterAfter (actions : List FilterAction) : String :=
  actions.foldl filterStep initialFilter

/-! ## Clearing invalid schedules (`pages/Schedules.jsx`, `handleClearInvalidSchedules`) -/

/-- What one run of `handleClearInvalidSchedules` does: the paths of the delete requests
it issues, and the last values passed to `setSuccess` and `setError`. -/
structure ClearOutcome where
  deleted : List String
  success : Option String
  error : Option String
  deriving DecidableEq

/-- The predicate of `response.data.filter`: the rule is present and `RRule.fromString`
throws on it. -/
def hasInvalidRule {ρ : Type} (lib : RRuleLib ρ) (schedule : Schedule) : Bool :=
  match truthy? schedule.recurrenceRule with
  | none => false
  | some text => (lib.fromString text).isNone

/-- The loop `for (const schedule of invalidSchedules) await api.delete(...)`. The binding
of the identifier `api` is a parameter: `none` when the identifier is not bound in the
module, so that evaluating `api.delete` throws a ReferenceError; otherwise the function
tells whether the request to a path succeeds. The result lists the requests issued and
tells whether the loop ran to its end. -/
def deleteAll (api : Option (String → Bool)) : List Schedule → List String × Bool
  | [] => ([], true)
  | schedule :: rest =>
    match api with
    | none => ([], false)
    | some request =>
      let path := "/schedules/" ++ schedule.id
      if request path then
        let (issued, finished) := deleteAll api rest
        (path :: issued, finished)
      else ([path], false)

/-- The body of `handleClearInvalidSchedules`, for a given binding of `api`. `userId` is
`user.id`; `fetched` is the data `getSchedulesByUser` resolves to, `none` when the
request is rejected. -/
def clearInvalidSchedulesWith {ρ : Type} (api : Option (String → Bool)) (lib : RRuleLib ρ)
    (userId : Option String) (fetched : Option (List Schedule)) : ClearOutcome :=
  match truthy? userId with
  | none =>
    { deleted := [], success := none, error := some "User ID is required to clear schedules" }
  | some _ =>
    match fetched with
    | none =>
      { deleted := []
        success := none
        error := some "Failed to clear invalid schedules. Please try again or contact support." }
    | some data =>
      let invalidSchedules := data.filter (hasInvalidRule lib)
      match deleteAll api invalidSchedules with
      | (issued, true) =>
        { deleted := issued
          success := some ("Cleared " ++ toString invalidSchedules.length ++
            " invalid schedules.")
          error := none }
      | (issued, false) =>
        { deleted := issued
          success := none
          error := some
            "Failed to clear invalid schedules. Please try again or contact support." }

/-- The binding of `api` inside `pages/Schedules.jsx`: the module imports only
`getSchedulesByUser` and `generateStudyPlan` from `../api`, and `api.js` does not export
its axios instance, so the identifier is not bound. -/
def schedulesModuleApi : Option (String → Bool) := none

/-- The handler `handleClearInvalidSchedules` as the page defines it. -/
def handleClearInvalidSchedules {ρ : Type} (lib : RRuleLib ρ) (userId : Option String)
    (fetched : Option (List Schedule)) : ClearOutcome :=
  clearInvalidSchedulesWith schedulesModuleApi lib userId fetched

/-! ## Date validation (`pages/Schedules.jsx`, `validateDates`) -/

/-- The function `validateDates`; `none` is the source's `null`. The constructor
`new Date(text)` is the parameter `parseDate`, with `none` for an invalid date. -/
def validateDates (parseDate : String → Option Int) (customStartDate customEndDate : String) :
    Option String :=
  if customStartDate = "" ∨ customEndDate = "" then
    some "Please select both start and end dates"
  else
    match parseDate customStartDate, parseDate customEndDate with
    | some start, some end_ =>
      if end_ ≤ start then some "End date must be after start date" else none
    | _, _ => some "Invalid date format"

/-- A date parser for the examples: it knows two dates of March 2024. -/
def sampleParseDate (text : String) : Option Int :=
  if text = "2024-03-01" then some 1709251200000
  else if text = "2024-03-31" then some 1711843200000
  else none

/-! ## The axios interceptors (`api.js`) and the sign-in error handler (`pages/SignIn.jsx`) -/

/-- The fields of an axios request configuration the embedding follows; `headers` maps a
header name to its value. -/
structure RequestConfig where
  url : String
  method : String
  baseURL : String
  headers : String → Option String
  params : List (String × String)
  data : Option String

/-- The request interceptor; `storedToken` is `localStorage.getItem('token')`. -/
def requestInterceptor (storedToken : Option String) (config : RequestConfig) :
    RequestConfig :=
  match truthy? storedToken with
  | some token =>
    { config with
      headers := fun name =>
        if name = "Authorization" then some ("Bearer " ++ token) else config.headers name }
  | none => config

/-- The body of a server response, as far as the handlers read it. -/
structure ResponseData where
  message : Option String
  deriving DecidableEq

/-- A server response: its HTTP status and its body. -/
structure HttpResponse where
  status : Nat
  data : Option ResponseData
  deriving DecidableEq

/-- The error axios hands to the response interceptor: `response` is absent when no
response was received. -/
structure AxiosError where
  response : Option HttpResponse
  deriving DecidableEq

/-- An error object as a `catch` block reads it: its message and its `response`
property, `none` when the object has no such property. -/
structure JsError where
  message : String
  response : Option HttpResponse
  deriving DecidableEq

/-- The error handler of the response interceptor: the value the promise is rejected
with, `new Error(errorMessage)`. -/
def responseRejected (error : AxiosError) : JsError :=
  { message :=
      (truthy? ((error.response.bind fun r => r.data).bind fun d => d.message)).getD
        "An unexpected error occurred"
    response := none }

/-- The function `handleError` of the sign-in page: the text passed to `setError`, or
`none` when reading `err.response.data.message` throws because `data` is absent. -/
def handleError (err : JsError) : Option String :=
  match err.response with
  | some response =>
    if response.status = 400 ∨ response.status = 401 then some "Invalid email or password."
    else if response.status = 429 then some "Too many attempts. Try again later."
    else if response.status = 500 then some "Something went wrong. Try again."
    else
      match response.data with
      | some data => some ((truthy? data.message).getD "An error occurred.")
      | none => none
  | none => some "Network error. Check your connection."

/-- The `catch` branch of `handleSignin` for a login request that axios failed with
`error`: `login` goes through the response interceptor, and the rejection is passed to
`handleError`. -/
def signinFailure (error : AxiosError) : Option String :=
  handleError (responseRejected error)

/-! ## Local time

The local time zone is a parameter. A `Date` method that reads local fields adds the
offset in force at the instant (`LocalTime` in the language specification); a method that
writes local fields resolves the reading it has written to an instant (`UTC` in the
language specification). At a clock change the two need not undo each other: a reading
the day skips resolves to an instant whose local reading is a different one. -/

/-- The number of milliseconds in a day. -/
def msPerDay : Int := 86400000

/-- A time zone. The offset from UTC in force at the instant `t` is `offsetAt t`, in
milliseconds; the offset the platform uses to resolve the local reading `w` (a local date
and time, counted in milliseconds like an instant) is `offsetOfLocal w`. -/
structure TimeZone where
  offsetAt : Int → Int
  offsetOfLocal : Int → Int

/-- The local reading of an instant (`LocalTime`). -/
def TimeZone.toLocal (zone : TimeZone) (date : Int) : Int :=
  date + zone.offsetAt date

/-- The instant a local reading resolves to (`UTC`). -/
def TimeZone.toInstant (zone : TimeZone) (wall : Int) : Int :=
  wall - zone.offsetOfLocal wall

/-- The call `date.setHours(hours, 0, 0, 0)`: the local day of the date at the given hour. -/
def setHours (zone : TimeZone) (date hours : Int) : Int :=
  zone.toInstant (zone.toLocal date / msPerDay * msPerDay + hours * 3600000)

/-- The call `date.setMinutes(minutes, 0, 0)`: the local day and hour of the date at the
given minute. -/
def setMinutes (zone : TimeZone) (date minutes : Int) : Int :=
  zone.toInstant (zone.toLocal date / msPerDay * msPerDay +
    zone.toLocal date % msPerDay / 3600000 * 3600000 + minutes * 60000)

/-- The zone of New York during 2024: five hours behind UTC, and four hours behind from
2024-03-10 07:00 UTC, when the clocks go from 02:00 to 03:00, until 2024-11-03 06:00 UTC,
when they go from 02:00 back to 01:00. A local reading that a day skips or repeats is
resolved with the offset in force before the change, so the readings from 2024-03-10
03:00 up to 2024-11-03 02:00 are resolved with four hours. -/
def newYork : TimeZone where
  offsetAt date :=
    if 1710054000000 ≤ date ∧ date < 1730613600000 then -14400000 else -18000000
  offsetOfLocal wall :=
    if 1710039600000 ≤ wall ∧ wall < 1730599200000 then -14400000 else -18000000

/-- The zone UTC. -/
def utc : TimeZone where
  offsetAt _ := 0
  offsetOfLocal _ := 0

/-! ## Study preferences (`pages/Settings.jsx`, `PreferenceModal`)

Numbers are JavaScript numbers as far as the validation reads them: not-a-number, the two
infinities, or a finite value, taken to be a rational. Integers are exact, so the
rendering of very large values in exponent form does not arise. The two calls of
`new Date()` inside one validation are two parameters, and so is the local zone, in which
`parse` builds its Dates. -/

/-- A JavaScript number. -/
inductive JsNumber where
  | nan
  | negInf
  | finite (value : ℚ)
  | posInf
  deriving DecidableEq

/-- The test `Number.isInteger(x)`. -/
def JsNumber.isInteger : JsNumber → Bool
  | JsNumber.finite q => decide (q.den = 1)
  | _ => false

/-- The comparison `x <= 0`. -/
def JsNumber.atMostZero : JsNumber → Bool
  | JsNumber.finite q => decide (q ≤ 0)
  | JsNumber.negInf => true
  | _ => false

/-- The comparison `x < 0`. -/
def JsNumber.belowZero : JsNumber → Bool
  | JsNumber.finite q => decide (q < 0)
  | JsNumber.negInf => true
  | _ => false

/-- The comparison `x > 1`. -/
def JsNumber.aboveOne : JsNumber → Bool
  | JsNumber.finite q => decide (1 < q)
  | JsNumber.posInf => true
  | _ => false

/-- The test `isNaN(x)`. -/
def JsNumber.isNaN : JsNumber → Bool
  | JsNumber.nan => true
  | _ => false

/-- The white space `parseInt` skips: the `WhiteSpace` and `LineTerminator` code points
of the language. -/
def isStrWhiteSpace (c : Char) : Bool :=
  c.toNat ∈ [9, 10, 11, 12, 13, 32, 160, 5760, 8232, 8233, 8239, 8287, 12288, 65279] ||
    (decide (8192 ≤ c.toNat) && decide (c.toNat ≤ 8202))

/-- The function `parseInt(text, 10)` on a string: leading white space is skipped, a sign
is read, then the longest run of decimal digits; `none` (not-a-number) when the run is
empty. -/
def parseIntChars (text : List Char) : Option Int :=
  let trimmed := text.dropWhile isStrWhiteSpace
  let negative := trimmed.head? = some '-'
  let body := if trimmed.head? = some '-' ∨ trimmed.head? = some '+' then trimmed.tail
    else trimmed
  let digits := body.takeWhile Char.isDigit
  if digits = [] then none
  else some (if negative then -(decimalValue digits : Int) else (decimalValue digits : Int))

/-- The function `parseInt(part, 10)` on an element of the array `time.split(':')`, which
is `undefined` (here `none`) when the array is too short. -/
def parseInt (part : Option (List Char)) : Option Int :=
  match part with
  | none => none
  | some text => parseIntChars text

/-- The elements `parts[0]` and `parts[1]` of `time.split(':')`. -/
def timeParts (time : String) : List Char × Option (List Char) :=
  let first := time.data.takeWhile fun c => c != ':'
  match time.data.dropWhile fun c => c != ':' with
  | [] => (first, none)
  | _ :: rest => (first, some (rest.takeWhile fun c => c != ':'))

/-- The call `text.padStart(2, '0')`. -/
def padStart2 (text : String) : String :=
  String.mk (List.replicate (2 - text.data.length) '0' ++ text.data)

/-- The local function `normalizeTime` of `validatePreference`; `none` is its `null`. -/
def normalizeTime (time : String) : Option String :=
  if time = "" then none
  else
    let parts := timeParts time
    match parseInt (some parts.1), parseInt parts.2 with
    | some hours, some minutes =>
      some (padStart2 (toString hours) ++ ":" ++ padStart2 (toString minutes))
    | _, _ => none

/-- One or two leading decimal digits, as the pattern of the tokens `HH` and `mm` reads
them: the value read and the rest of the text. -/
def takeTwoDigits (text : List Char) : Option (Nat × List Char) :=
  match text with
  | a :: b :: rest =>
    if a.isDigit then
      if b.isDigit then some (decimalValue [a, b], rest) else some (decimalValue [a], b :: rest)
    else none
  | [a] => if a.isDigit then some (decimalValue [a], []) else none
  | [] => none

/-- The hours and the minutes the tokens `HH` and `mm` of the format `HH:mm` read from a
text, `none` when the text does not match. Hours run from 0 to 23, minutes from 0 to 59,
and nothing but white space may follow. -/
def parseHHmm (text : String) : Option (Nat × Nat) :=
  match takeTwoDigits text.data with
  | some (hours, ':' :: rest) =>
    if hours ≤ 23 then
      match takeTwoDigits rest with
      | some (minutes, tail) =>
        if minutes ≤ 59 ∧ tail.all isStrWhiteSpace then some (hours, minutes) else none
      | none => none
    else none
  | _ => none

/-- The call `parse(text, 'HH:mm', referenceDate)` of date-fns followed by `isValid`,
`none` for an invalid date. The result is the reference date with the setter of `HH`,
`setHours(hours, 0, 0, 0)`, and then the setter of `mm`, `setMinutes(minutes, 0, 0)`,
applied in local time: the Date of the local day of the reference date at the hours and
minutes read, as the zone resolves that reading. -/
def parse (zone : TimeZone) (text : String) (referenceDate : Int) : Option Int :=
  match parseHHmm text with
  | some (hours, minutes) =>
    some (setMinutes zone (setHours zone referenceDate hours) minutes)
  | none => none

/-- A stored study preference, as far as the validation reads it. -/
structure StudyPreference where
  id : String
  day : String
  deriving DecidableEq

/-- The state `newPreference` of the dialog. The two numeric entries hold the number the
field converts to, which is what `Number(...)`, the comparisons and `isNaN` read. -/
structure PreferenceForm where
  day : String
  startTime : String
  endTime : String
  preferredSlotDuration : JsNumber
  productivityScore : JsNumber
  deriving DecidableEq

/-- The function `validatePreference`; `none` is its `null`. The instants `startNow` and
`endNow` are the values of the two calls of `new Date()`. -/
def validatePreference (zone : TimeZone) (startNow endNow : Int)
    (newPreference : PreferenceForm)
    (existingPreferences : List StudyPreference) (preferenceId : Option String) :
    Option String :=
  if newPreference.day = "" then some "Day is required"
  else if newPreference.startTime = "" ∨ newPreference.endTime = "" then
    some "Start and end times are required"
  else
    match normalizeTime newPreference.startTime, normalizeTime newPreference.endTime with
    | some startTime, some endTime =>
      match parse zone startTime startNow, parse zone endTime endNow with
      | some start, some end_ =>
        if end_ ≤ start then some "End time must be after start time"
        else if !newPreference.preferredSlotDuration.isInteger ||
            newPreference.preferredSlotDuration.atMostZero then
          some "Preferred slot duration must be a positive integer"
        else if newPreference.productivityScore.belowZero ||
            newPreference.productivityScore.aboveOne ||
            newPreference.productivityScore.isNaN then
          some "Productivity score must be between 0 and 1"
        else if existingPreferences.any
            (fun p => decide (p.day = newPreference.day) && decide (some p.id ≠ preferenceId)) then
          some ("A preference for " ++ newPreference.day ++ " already exists")
        else none
      | _, _ => some "Invalid time format"
    | _, _ => some "Invalid time format"

/-- The entries of `preferenceData` the embedding follows. The two numeric entries, read
with `parseInt` and `parseFloat` from the raw fields, are left out. -/
structure PreferenceData where
  day : String
  startTime : String
  endTime : String
  userId : String
  deriving DecidableEq

/-- The call `text.slice(0, 5)`. -/
def slice5 (text : String) : String :=
  String.mk (text.data.take 5)

/-- The function `handleSave`: the message passed to `onError`, or the data passed to
`onSave`. -/
def handleSave (zone : TimeZone) (startNow endNow : Int) (newPreference : PreferenceForm)
    (existingPreferences : List StudyPreference)
    (preferenceId : Option String) (userId : String) : Except String PreferenceData :=
  match validatePreference zone startNow endNow newPreference existingPreferences
      preferenceId with
  | some validationError => Except.error validationError
  | none =>
    Except.ok
      { day := newPreference.day
        startTime := slice5 newPreference.startTime
        endTime := slice5 newPreference.endTime
        userId := userId }

/-- A raw time text of the form two digits, colon, two digits, followed by nothing or
by a character that is not a digit: what a time input yields (`09:30`) and what a stored
time looks like (`09:30:00`). -/
def isPaddedTime (raw : String) : Bool :=
  match raw.data with
  | a :: b :: ':' :: c :: d :: rest =>
    a.isDigit && b.isDigit && c.isDigit && d.isDigit &&
      (match rest with
        | [] => true
        | x :: _ => !x.isDigit)
  | _ => false

/-- A form state with times typed without leading zero. -/
def unpaddedForm : PreferenceForm :=
  { day := "MONDAY"
    startTime := "9:30"
    endTime := "17:00"
    preferredSlotDuration := JsNumber.finite 60
    productivityScore := JsNumber.finite 1 }

/-- A form state as the time inputs yield it. -/
def paddedForm : PreferenceForm :=
  { day := "MONDAY"
    startTime := "09:30"
    endTime := "17:00:00"
    preferredSlotDuration := JsNumber.finite 60
    productivityScore := JsNumber.finite 0 }

/-- A stored preference for Tuesday. -/
def tuesdayPreference : StudyPreference := { id := "7", day := "TUESDAY" }


/-- A form state with the end time of day before the start time of day. -/
def springForwardForm : PreferenceForm :=
  { day := "SUNDAY"
    startTime := "03:30"
    endTime := "02:45"
    preferredSlotDuration := JsNumber.finite 60
    productivityScore := JsNumber.finite 0 }

/-! ## The default window (`pages/Schedules.jsx`, `defaultStart` and `defaultEnd`)

Dates follow the day and year arithmetic of the language specification (`DayFromYear`,
`YearFromTime`, `MonthFromTime`, `DateFromTime`, `MakeDay`); months are numbered from 0.
The methods of `Date` that date-fns calls read and write local fields in the local zone,
which may have clock changes. Both calls of `new Date()` in one render read the same
instant. -/

/-- The day number of the first day of year `y` (`DayFromYear`). -/
def dayFromYear (y : Int) : Int :=
  365 * (y - 1970) + (y - 1969) / 4 - (y - 1901) / 100 + (y - 1601) / 400

/-- The number of days of year `y` (`DaysInYear`). -/
def daysInYear (y : Int) : Int :=
  if y % 4 ≠ 0 then 365 else if y % 100 ≠ 0 then 366 else if y % 400 ≠ 0 then 365 else 366

/-- One for a leap year, zero otherwise (`InLeapYear`). -/
def inLeapYear (y : Int) : Int :=
  daysInYear y - 365

/-- The year a day falls in (`YearFromTime`): the largest year whose first day is not
after the day, found from an estimate that is off by at most one. -/
def yearFromDay (day : Int) : Int :=
  let estimate := 1970 + 400 * day / 146097
  if dayFromYear (estimate + 1) ≤ day then estimate + 1
  else if dayFromYear estimate ≤ day then estimate
  else estimate - 1

/-- The number of days of a year before its month `m`; for `m` past 11 the length of the
year. -/
def daysBeforeMonth (leap m : Int) : Int :=
  if m ≤ 0 then 0
  else if m = 1 then 31
  else if m = 2 then 59 + leap
  else if m = 3 then 90 + leap
  else if m = 4 then 120 + leap
  else if m = 5 then 151 + leap
  else if m = 6 then 181 + leap
  else if m = 7 then 212 + leap
  else if m = 8 then 243 + leap
  else if m = 9 then 273 + leap
  else if m = 10 then 304 + leap
  else if m = 11 then 334 + leap
  else 365 + leap

/-- The month of a day given by its position within the year and the leap flag of the
year: the table of `MonthFromTime`. -/
def monthOfDayWithinYear (dayWithinYear leap : Int) : Int :=
  if dayWithinYear < 31 then 0
  else if dayWithinYear < 59 + leap then 1
  else if dayWithinYear < 90 + leap then 2
  else if dayWithinYear < 120 + leap then 3
  else if dayWithinYear < 151 + leap then 4
  else if dayWithinYear < 181 + leap then 5
  else if dayWithinYear < 212 + leap then 6
  else if dayWithinYear < 243 + leap then 7
  else if dayWithinYear < 273 + leap then 8
  else if dayWithinYear < 304 + leap then 9
  else if dayWithinYear < 334 + leap then 10
  else 11

/-- The month a day falls in (`MonthFromTime`). -/
def monthFromDay (day : Int) : Int :=
  monthOfDayWithinYear (day - dayFromYear (yearFromDay day)) (inLeapYear (yearFromDay day))

/-- The day of the month of a day (`DateFromTime`). -/
def dateFromDay (day : Int) : Int :=
  day - dayFromYear (yearFromDay day) -
    daysBeforeMonth (inLeapYear (yearFromDay day)) (monthFromDay day) + 1

/-- The day number of a year, month and day of the month, months past the ends of the
year carrying into the year (`MakeDay`). -/
def makeDay (year month date : Int) : Int :=
  dayFromYear (year + month / 12) +
    daysBeforeMonth (inLeapYear (year + month / 12)) (month % 12) + date - 1

/-- The call `date.getFullYear()`. -/
def getFullYear (zone : TimeZone) (date : Int) : Int :=
  yearFromDay (zone.toLocal date / msPerDay)

/-- The call `date.getMonth()`. -/
def getMonth (zone : TimeZone) (date : Int) : Int :=
  monthFromDay (zone.toLocal date / msPerDay)

/-- The call `date.getDate()`. -/
def getDate (zone : TimeZone) (date : Int) : Int :=
  dateFromDay (zone.toLocal date / msPerDay)

/-- The call `date.setFullYear(year, month, day)`: the given local day at the local time
of day of the date. -/
def setFullYear (zone : TimeZone) (date year month day : Int) : Int :=
  zone.toInstant (makeDay year month day * msPerDay + zone.toLocal date % msPerDay)

/-- The call `date.setMonth(month, day)`. -/
def setMonth (zone : TimeZone) (date month day : Int) : Int :=
  setFullYear zone date (getFullYear zone date) month day

/-- The call `date.setDate(day)`. -/
def setDate (zone : TimeZone) (date day : Int) : Int :=
  setFullYear zone date (getFullYear zone date) (getMonth zone date) day

/-- The function `startOfMonth` of date-fns: `setDate(1)`, then `setHours(0, 0, 0, 0)`. -/
def startOfMonth (zone : TimeZone) (date : Int) : Int :=
  setHours zone (setDate zone date 1) 0

/-- The function `addMonths` of date-fns: the end of the target month is found with
`setMonth(month + amount + 1, 0)` on a copy of the date; the result is that copy when the
day of the month of the date is not before the day of the month of the copy, and
otherwise the date after `setFullYear` with the year and the month of the copy and its
own day of the month. -/
def addMonths (zone : TimeZone) (date amount : Int) : Int :=
  if amount = 0 then date
  else if getDate zone date ≥
      getDate zone (setMonth zone date (getMonth zone date + amount + 1) 0) then
    setMonth zone date (getMonth zone date + amount + 1) 0
  else
    setFullYear zone date
      (getFullYear zone (setMonth zone date (getMonth zone date + amount + 1) 0))
      (getMonth zone (setMonth zone date (getMonth zone date + amount + 1) 0))
      (getDate zone date)

/-- The instant of `defaultStart`, at the instant `now`. -/
def defaultStart (zone : TimeZone) (now : Int) : Int :=
  formatISO (startOfMonth zone now)

/-- The instant of `defaultEnd`, at the instant `now`. -/
def defaultEnd (zone : TimeZone) (now : Int) : Int :=
  formatISO (addMonths zone (startOfMonth zone now) 1)

/-! ## A rule that parses and cannot be enumerated

A series start may name its time zone (`DTSTART;TZID=...`). `RRule.fromString` keeps the
name as it stands; the instants are converted to that zone only when the rule is
enumerated, and the conversion throws for a name the platform does not know. -/

/-- A weekly rule text whose series start names an unknown time zone. -/
def nowhereRule : String :=
  "DTSTART;TZID=Nowhere/Land:20240304T090000\nRRULE:FREQ=WEEKLY;COUNT=3"

/-- The behaviour of the rule package on `mondayRule` and on `nowhereRule`; every other
text is rejected by this instance. A parsed rule is `none` when its zone is unknown, and
enumerating it throws. -/
def zonedLib : RRuleLib (Option WeeklyRule) where
  fromString text :=
    if text = mondayRule then some (some { dtstart := 1709542800000, count := 3 })
    else if text = nowhereRule then some none
    else none
  all rule := rule.map fun r => weeklySeries r.dtstart r.count

/-- The weekly record with the rule text that names an unknown time zone. -/
def nowhereRecord : Schedule :=
  { weeklyRecord with recurrenceRule := some nowhereRule }

/-- The record one day later with the rule text that names an unknown time zone. -/
def nowhereTuesdayRecord : Schedule :=
  { tuesdayRecord with recurrenceRule := some nowhereRule }

/-- The record with a rejected rule text, starting half a second later. -/
def halfSecondMalformedRecord : Schedule :=
  { malformedRecord with startTime := 1709632800500 }

/-! ## Decimal rendering of integers -/

theorem digitValue_digitChar (d : Nat) (h : d < 10) : digitValue (Nat.digitChar d) = d := by
  interval_cases d <;> rfl

theorem digitChar_ne_dash (d : Nat) (h : d < 10) : Nat.digitChar d ≠ '-' := by
  interval_cases d <;> decide

theorem toDigitsCore_append (f : Nat) : ∀ (n : Nat) (ds : List Char),
    Nat.toDigitsCore 10 f n ds = Nat.toDigitsCore 10 f n [] ++ ds := by
  induction f with
  | zero => intro n ds; simp [Nat.toDigitsCore]
  | succ f ih =>
    intro n ds
    simp only [Nat.toDigitsCore]
    split
    · simp
    · rw [ih (n / 10) (_ :: ds), ih (n / 10) [_]]
      simp

theorem decimalValue_append_singleton (l : List Char) (c : Char) :
    decimalValue (l ++ [c]) = 10 * decimalValue l + digitValue c := by
  simp [decimalValue, List.foldl_append]

theorem decimalValue_toDigitsCore (f : Nat) : ∀ n : Nat, n < f →
    decimalValue (Nat.toDigitsCore 10 f n []) = n := by
  induction f with
  | zero => intro n h; omega
  | succ f ih =>
    intro n h
    simp only [Nat.toDigitsCore]
    split
    · rename_i h0
      have hn : n < 10 := by omega
      have : n % 10 = n := Nat.mod_eq_of_lt hn
      simp [decimalValue, this, digitValue_digitChar n hn]
    · rename_i h0
      rw [toDigitsCore_append, decimalValue_append_singleton, ih (n / 10) (by omega),
        digitValue_digitChar _ (Nat.mod_lt _ (by decide))]
      omega

theorem toDigitsCore_no_dash (f : Nat) : ∀ n : Nat, ∀ c ∈ Nat.toDigitsCore 10 f n [], c ≠ '-' := by
  induction f with
  | zero => intro n c h; simp [Nat.toDigitsCore] at h
  | succ f ih =>
    intro n c h
    simp only [Nat.toDigitsCore] at h
    split at h
    · simp at h
      rw [h]; exact digitChar_ne_dash _ (Nat.mod_lt _ (by decide))
    · rw [toDigitsCore_append] at h
      simp at h
      rcases h with h | h
      · exact ih _ c h
      · rw [h]; exact digitChar_ne_dash _ (Nat.mod_lt _ (by decide))

theorem natRepr_data (n : Nat) : (toString n).data = Nat.toDigitsCore 10 (n + 1) n [] := rfl

theorem natToString_injective (m n : Nat) (h : toString m = toString n) : m = n := by
  have h1 := congrArg String.data h
  rw [natRepr_data, natRepr_data] at h1
  have h2 := congrArg decimalValue h1
  rwa [decimalValue_toDigitsCore _ _ (Nat.lt_succ_self _),
    decimalValue_toDigitsCore _ _ (Nat.lt_succ_self _)] at h2

theorem natToString_no_dash (n : Nat) : ∀ c ∈ (toString n).data, c ≠ '-' := by
  rw [natRepr_data]; exact toDigitsCore_no_dash _ _

theorem intToString_ofNat (n : Nat) : toString (Int.ofNat n) = toString n := rfl

theorem intToString_negSucc (n : Nat) :
    toString (Int.negSucc n) = "-" ++ toString (n + 1) := rfl

theorem intToString_injective (t u : Int) (h : toString t = toString u) : t = u := by
  cases t with
  | ofNat m =>
    cases u with
    | ofNat n =>
      rw [intToString_ofNat, intToString_ofNat] at h
      rw [natToString_injective m n h]
    | negSucc n =>
      exfalso
      rw [intToString_ofNat, intToString_negSucc] at h
      have h1 := congrArg String.data h
      rw [String.data_append] at h1
      have : '-' ∈ (toString m).data := by rw [h1]; simp
      exact natToString_no_dash m _ this rfl
  | negSucc m =>
    cases u with
    | ofNat n =>
      exfalso
      rw [intToString_ofNat, intToString_negSucc] at h
      have h1 := congrArg String.data h
      rw [String.data_append] at h1
      have : '-' ∈ (toString n).data := by rw [← h1]; simp
      exact natToString_no_dash n _ this rfl
    | negSucc n =>
      rw [intToString_negSucc, intToString_negSucc] at h
      have h1 := congrArg String.data h
      rw [String.data_append, String.data_append] at h1
      have h2 := String.ext (List.append_cancel_left h1)
      have := natToString_injective _ _ h2
      have : m = n := by omega
      rw [this]

/-! ## The expander, case by case -/

theorem expandSchedule_noRule {ρ : Type} (lib : RRuleLib ρ) (ws we : Int) (f : String)
    (s : Schedule) (h : hasRule s = false) :
    (expandSchedule lib ws we f s).events = if f ≠ "auto" then [baseEvent s] else [] := by
  have h1 : truthy? s.recurrenceRule = none := by
    simpa [hasRule] using h
  simp [expandSchedule, h1]

theorem expandSchedule_manual {ρ : Type} (lib : RRuleLib ρ) (ws we : Int)
    (s : Schedule) :
    (expandSchedule lib ws we "manual" s).events = [baseEvent s] := by
  unfold expandSchedule
  split
  · rename_i h1 h2; simp at h2
  · simp

theorem expandSchedule_parsed {ρ : Type} (lib : RRuleLib ρ) (ws we : Int) (f : String)
    (s : Schedule) (text : String) (rule : ρ) (occurrences : List Int)
    (hrule : truthy? s.recurrenceRule = some text) (hparse : lib.fromString text = some rule)
    (henum : lib.between rule ws we true = some occurrences)
    (hf : f ≠ "manual") :
    (expandSchedule lib ws we f s).events =
      occurrences.map (occurrenceEvent (baseEvent s) (s.endTime - s.startTime)) := by
  simp [expandSchedule, hrule, hparse, henum, hf]

theorem expandSchedule_threw {ρ : Type} (lib : RRuleLib ρ) (ws we : Int) (f : String)
    (s : Schedule) (text : String) (rule : ρ)
    (hrule : truthy? s.recurrenceRule = some text) (hparse : lib.fromString text = some rule)
    (henum : lib.between rule ws we true = none)
    (hf : f ≠ "manual") :
    (expandSchedule lib ws we f s).events = [baseEvent s] := by
  simp [expandSchedule, hrule, hparse, henum, hf]

theorem expandSchedule_failed {ρ : Type} (lib : RRuleLib ρ) (ws we : Int) (f : String)
    (s : Schedule) (text : String)
    (hrule : truthy? s.recurrenceRule = some text) (hparse : lib.fromString text = none)
    (hf : f ≠ "manual") :
    (expandSchedule lib ws we f s).events = [baseEvent s] := by
  simp [expandSchedule, hrule, hparse, hf]

theorem mem_expandSchedule_events {ρ : Type} (lib : RRuleLib ρ) (ws we : Int) (f : String)
    (s : Schedule) (e : CalendarEvent) (he : e ∈ (expandSchedule lib ws we f s).events) :
    e = baseEvent s ∨
      ∃ text rule occurrences t, truthy? s.recurrenceRule = some text ∧
        lib.fromString text = some rule ∧ lib.between rule ws we true = some occurrences ∧
        t ∈ occurrences ∧
        e = occurrenceEvent (baseEvent s) (s.endTime - s.startTime) t := by
  unfold expandSchedule at he
  split at he
  · rename_i text h1 h2
    split at he
    · rename_i rule h3
      split at he
      · rename_i occurrences h4
        simp only [List.mem_map] at he
        obtain ⟨t, ht, rfl⟩ := he
        exact Or.inr ⟨text, rule, occurrences, t, h1, h3, h4, ht, rfl⟩
      · simp at he; exact Or.inl he
    · simp at he; exact Or.inl he
  · split at he
    · simp at he; exact Or.inl he
    · simp at he

theorem between_of_all {ρ : Type} (lib : RRuleLib ρ) (rule : ρ) (a b : Int)
    (series : List Int) (h : lib.all rule = some series) :
    lib.between rule a b true =
      some (series.filter fun d => decide (a ≤ d) && decide (d ≤ b)) := by
  simp [RRuleLib.between, h]

theorem between_eq_some {ρ : Type} (lib : RRuleLib ρ) (rule : ρ) (a b : Int)
    (occurrences : List Int) (h : lib.between rule a b true = some occurrences) :
    ∃ series, lib.all rule = some series ∧
      occurrences = series.filter fun d => decide (a ≤ d) && decide (d ≤ b) := by
  cases hall : lib.all rule with
  | none =>
    rw [RRuleLib.between, hall] at h
    exact Option.noConfusion h
  | some series =>
    rw [between_of_all lib rule a b series hall] at h
    exact ⟨series, rfl, (Option.some.inj h).symm⟩

theorem mem_between {ρ : Type} (lib : RRuleLib ρ) (rule : ρ) (a b t : Int)
    (occurrences : List Int) (h : lib.between rule a b true = some occurrences) :
    t ∈ occurrences ↔ (∃ series, lib.all rule = some series ∧ t ∈ series) ∧ a ≤ t ∧ t ≤ b := by
  obtain ⟨series, hall, rfl⟩ := between_eq_some lib rule a b occurrences h
  simp [hall]

theorem formatISO_le (t : Int) : formatISO t ≤ t := by
  unfold formatISO; omega

theorem formatISO_of_dvd (t : Int) (h : 1000 ∣ t) : formatISO t = t := by
  unfold formatISO; omega

theorem le_formatISO (a t : Int) (ha : 1000 ∣ a) (h : a ≤ t) : a ≤ formatISO t := by
  unfold formatISO; omega

theorem formatISO_add_of_dvd (t d : Int) (h : 1000 ∣ d) :
    formatISO (t + d) = formatISO t + d := by
  unfold formatISO; omega

/-! ## Identifiers -/

theorem occurrenceId_data (a : String) (t : Int) :
    (occurrenceId a t).data = a.data ++ '-' :: (toString t).data := by
  simp [occurrenceId, String.data_append]

theorem occurrenceId_injective (a : String) (t u : Int)
    (h : occurrenceId a t = occurrenceId a u) : t = u := by
  have h1 := congrArg String.data h
  rw [occurrenceId_data, occurrenceId_data] at h1
  have h2 := List.append_cancel_left h1
  exact intToString_injective t u (String.ext (List.cons_injective h2))

theorem extendsByDash_of_eq (a b : String) (rest : List Char)
    (h : b.data = a.data ++ '-' :: rest) : extendsByDash a b = true := by
  unfold extendsByDash
  rw [ List.isPrefixOf_iff_prefix, String.data_append, h]
  exact ⟨rest, by simp⟩

theorem extendsByDash_of_occurrenceId_eq (a b : String) (t u : Int) (hab : a ≠ b)
    (h : occurrenceId a t = occurrenceId b u) :
    extendsByDash a b = true ∨ extendsByDash b a = true := by
  have h1 := congrArg String.data h
  rw [occurrenceId_data, occurrenceId_data] at h1
  rcases List.append_eq_append_iff.mp h1 with ⟨c, hc, hrest⟩ | ⟨c, hc, hrest⟩
  · cases c with
    | nil => exact absurd (String.ext (by simpa using hc.symm)) hab
    | cons x c =>
      have hx : x = '-' := by
        have := congrArg List.head? hrest
        simpa using this.symm
      subst hx
      exact Or.inl (extendsByDash_of_eq a b c hc)
  · cases c with
    | nil => exact absurd (String.ext (by simpa using hc)) hab
    | cons x c =>
      have hx : x = '-' := by
        have := congrArg List.head? hrest
        simpa using this.symm
      subst hx
      exact Or.inr (extendsByDash_of_eq b a c hc)

theorem mem_emitted_ids {ρ : Type} (lib : RRuleLib ρ) (ws we : Int) (f : String)
    (s : Schedule) (i : String)
    (hi : i ∈ (expandSchedule lib ws we f s).events.map (fun e => e.id)) :
    i = s.id ∨ ∃ t, i = occurrenceId s.id t := by
  rw [List.mem_map] at hi
  obtain ⟨e, he, rfl⟩ := hi
  rcases mem_expandSchedule_events lib ws we f s e he with h | ⟨_, _, _, t, _, _, _, _, h⟩
  · exact Or.inl (by rw [h]; rfl)
  · exact Or.inr ⟨t, by rw [h]; rfl⟩

theorem emitted_ids_nodup {ρ : Type} (lib : RRuleLib ρ) (ws we : Int) (f : String)
    (s : Schedule)
    (hlib : ∀ text rule series, lib.fromString text = some rule →
      lib.all rule = some series → series.Nodup) :
    ((expandSchedule lib ws we f s).events.map (fun e => e.id)).Nodup := by
  unfold expandSchedule
  split
  · rename_i text h1 h2
    split
    · rename_i rule h3
      split
      · rename_i occurrences h4
        obtain ⟨series, hall, rfl⟩ := between_eq_some lib rule _ _ occurrences h4
        simp only [List.map_map]
        refine List.Nodup.map_on ?_ ((hlib text rule series h3 hall).filter _)
        intro t _ u _ htu
        exact occurrenceId_injective _ t u htu
      · simp
    · simp
  · split <;> simp

/-! ## Fields of the emitted occurrences -/

theorem event_span {ρ : Type} (lib : RRuleLib ρ) (ws we : Int) (f : String)
    (s : Schedule) (e : CalendarEvent) (he : e ∈ (expandSchedule lib ws we f s).events) :
    ∃ t : Int, e.start = formatISO t ∧ e.end_ = formatISO (t + (s.endTime - s.startTime)) := by
  rcases mem_expandSchedule_events lib ws we f s e he with h | ⟨_, _, _, t, _, _, _, _, h⟩
  · refine ⟨s.startTime, by rw [h]; rfl, ?_⟩
    rw [h]
    show formatISO s.endTime = _
    congr 1
    omega
  · exact ⟨t, by rw [h]; rfl, by rw [h]; rfl⟩

theorem event_type {ρ : Type} (lib : RRuleLib ρ) (ws we : Int) (f : String)
    (s : Schedule) (e : CalendarEvent) (he : e ∈ (expandSchedule lib ws we f s).events) :
    e.extendedProps.type = if hasRule s then "auto" else "manual" := by
  rcases mem_expandSchedule_events lib ws we f s e he with h | ⟨_, _, _, t, _, _, _, _, h⟩ <;>
    rw [h] <;> rfl

theorem event_title {ρ : Type} (lib : RRuleLib ρ) (ws we : Int) (f : String)
    (s : Schedule) (e : CalendarEvent) (he : e ∈ (expandSchedule lib ws we f s).events) :
    e.title = (truthy? s.description).getD "Study Session" := by
  rcases mem_expandSchedule_events lib ws we f s e he with h | ⟨_, _, _, t, _, _, _, _, h⟩ <;>
    rw [h] <;> rfl

/-! ## The claims -/

/-- C1: for a record with no recurrenceRule (the field absent, null or empty, so that
the source's test `schedule.recurrenceRule` fails), the expander emits exactly one
occurrence under filter 'all' or 'manual', whose id is the record's id, and emits
nothing under filter 'auto'. -/
theorem nonrecurring_record_emission {ρ : Type} (lib : RRuleLib ρ)
    (windowStart windowEnd : Int) (filterType : String) (schedule : Schedule)
    (hno : hasRule schedule = false) :
    ((filterType = "all" ∨ filterType = "manual") →
      ∃ e, (expandSchedule lib windowStart windowEnd filterType schedule).events = [e] ∧
        e.id = schedule.id) ∧
    (filterType = "auto" →
      (expandSchedule lib windowStart windowEnd filterType schedule).events = []) := by
  rw [expandSchedule_noRule lib windowStart windowEnd filterType schedule hno]
  constructor
  · intro hf
    refine ⟨baseEvent schedule, ?_, rfl⟩
    rcases hf with hf | hf <;> subst hf <;> simp
  · intro hf
    subst hf
    simp

/-- Witness for C1: the one-off record under filter 'all'. -/
theorem nonrecurring_record_emission_witness :
    hasRule oneOffRecord = false ∧
    ((("all" : String) = "all" ∨ ("all" : String) = "manual") →
      ∃ e, (expandSchedule mondayLib marchStart aprilStart "all" oneOffRecord).events = [e] ∧
        e.id = oneOffRecord.id) ∧
    (("all" : String) = "auto" →
      (expandSchedule mondayLib marchStart aprilStart "all" oneOffRecord).events = []) :=
  ⟨by decide,
    nonrecurring_record_emission mondayLib marchStart aprilStart "all" oneOffRecord
      (by decide)⟩

/-- C2 fails as stated: the weekly Monday record lasting one hour and 500 ms is emitted
with ends that are not the enumerated instants plus the record's duration; and the
record whose rule text parses but names an unknown time zone is emitted as its one base
occurrence, because enumerating the rule throws. -/
theorem expansion_differs_from_enumerated_instants :
    (truthy? halfSecondRecord.recurrenceRule = some mondayRule ∧
      mondayLib.fromString mondayRule = some mondaySeries ∧
      mondayLib.between mondaySeries marchStart aprilStart true =
        some [1709542800000, 1710147600000, 1710752400000] ∧
      halfSecondRecord.endTime - halfSecondRecord.startTime = 3600500) ∧
    ((expandSchedule mondayLib marchStart aprilStart "all" halfSecondRecord).events.map
        fun e => e.end_) = [1709546400000, 1710151200000, 1710756000000] ∧
    ((expandSchedule mondayLib marchStart aprilStart "all" halfSecondRecord).events.map
        fun e => e.end_) ≠
      [1709542800000 + 3600500, 1710147600000 + 3600500, 1710752400000 + 3600500] ∧
    (truthy? nowhereRecord.recurrenceRule = some nowhereRule ∧
      zonedLib.fromString nowhereRule = some none ∧
      zonedLib.between none marchStart aprilStart true = none) ∧
    (expandSchedule zonedLib marchStart aprilStart "all" nowhereRecord).events =
      [baseEvent nowhereRecord] := by
  decide

/-- C2 as amended: for a record whose recurrenceRule parses and for filter 'all' or
'auto', when `between(windowStart, windowEnd, true)` returns, the expander's output for
the record is the list of the returned instants t, each mapped in order to the occurrence
whose start is t cut to the whole second, whose end is t + (endTime - startTime) cut to
the whole second, whose id is the record id, a dash and t in epoch milliseconds, and
whose title, colours and provenance are those of the base occurrence; start is t and end
is t + (endTime - startTime) when the duration and the returned instants are whole
seconds. When the enumeration throws, the output is the base occurrence alone. -/
theorem recurring_record_expansion {ρ : Type} (lib : RRuleLib ρ)
    (windowStart windowEnd : Int) (filterType : String) (schedule : Schedule)
    (text : String) (rule : ρ)
    (hrule : truthy? schedule.recurrenceRule = some text)
    (hparse : lib.fromString text = some rule)
    (hf : filterType = "all" ∨ filterType = "auto") :
    (∀ occurrences, lib.between rule windowStart windowEnd true = some occurrences →
      (expandSchedule lib windowStart windowEnd filterType schedule).events =
        occurrences.map (fun t =>
          { title := (baseEvent schedule).title
            start := t - t % 1000
            end_ := t + (schedule.endTime - schedule.startTime) -
              (t + (schedule.endTime - schedule.startTime)) % 1000
            id := schedule.id ++ "-" ++ toString t
            backgroundColor := (baseEvent schedule).backgroundColor
            borderColor := (baseEvent schedule).borderColor
            extendedProps := (baseEvent schedule).extendedProps }) ∧
      (1000 ∣ schedule.endTime - schedule.startTime → (∀ t ∈ occurrences, 1000 ∣ t) →
        (expandSchedule lib windowStart windowEnd filterType schedule).events =
          occurrences.map (fun t =>
            { title := (baseEvent schedule).title
              start := t
              end_ := t + (schedule.endTime - schedule.startTime)
              id := schedule.id ++ "-" ++ toString t
              backgroundColor := (baseEvent schedule).backgroundColor
              borderColor := (baseEvent schedule).borderColor
              extendedProps := (baseEvent schedule).extendedProps }))) ∧
    (lib.between rule windowStart windowEnd true = none →
      (expandSchedule lib windowStart windowEnd filterType schedule).events =
        [baseEvent schedule]) := by
  have hf2 : filterType ≠ "manual" := by
    rcases hf with hf | hf <;> subst hf <;> decide
  refine ⟨?_, ?_⟩
  · intro occurrences henum
    rw [expandSchedule_parsed lib windowStart windowEnd filterType schedule text rule
      occurrences hrule hparse henum hf2]
    refine ⟨rfl, ?_⟩
    intro hd hwhole
    apply List.map_congr_left
    intro t ht
    have h1 : formatISO t = t := formatISO_of_dvd t (hwhole t ht)
    have h2 : formatISO (t + (schedule.endTime - schedule.startTime)) =
        t + (schedule.endTime - schedule.startTime) := by
      rw [formatISO_add_of_dvd t _ hd, h1]
    simp only [occurrenceEvent, h1, h2]
    rfl
  · intro henum
    exact expandSchedule_threw lib windowStart windowEnd filterType schedule text rule hrule
      hparse henum hf2

/-- Witness for C2 as amended: the weekly Monday record in the window of March 2024. -/
theorem recurring_record_expansion_witness :
    (truthy? weeklyRecord.recurrenceRule = some mondayRule ∧
      mondayLib.fromString mondayRule = some mondaySeries ∧
      mondayLib.between mondaySeries marchStart aprilStart true =
        some [1709542800000, 1710147600000, 1710752400000]) ∧
    ((expandSchedule mondayLib marchStart aprilStart "all" weeklyRecord).events.map
        fun e => (e.start, e.end_, e.id)) =
      [(1709542800000, 1709546400000, "S1-1709542800000"),
       (1710147600000, 1710151200000, "S1-1710147600000"),
       (1710752400000, 1710756000000, "S1-1710752400000")] :=
  ⟨by decide,
    by
      rw [((recurring_record_expansion mondayLib marchStart aprilStart "all" weeklyRecord
        mondayRule mondaySeries (by decide) (by decide) (Or.inl rfl)).1
          [1709542800000, 1710147600000, 1710752400000] (by decide)).2
            (by decide) (by decide)]
      decide⟩

/-- C3 fails as stated: with the window from 2024-03-01 00:00 UTC to 2024-03-11 09:00 UTC,
the weekly Monday record yields an occurrence starting exactly at the window end, and a
one-off record dated 2024-04-15 is emitted although it starts after the window. -/
theorem start_outside_half_open_window :
    marchStart < secondMonday ∧
    (∃ e ∈ queryFn mondayLib marchStart secondMonday "all" [weeklyRecord],
      e.start = secondMonday ∧ ¬ (marchStart ≤ e.start ∧ e.start < secondMonday)) ∧
    (∃ e ∈ queryFn mondayLib marchStart secondMonday "all" [aprilRecord],
      e.start = aprilRecord.startTime ∧ ¬ (marchStart ≤ e.start ∧ e.start < secondMonday)) := by
  decide

/-- C3 as amended: when windowStart is a whole second, every occurrence in the output
either is the un-expanded base occurrence of one of the records (which carries the
record's own start whatever the window) or starts inside the closed interval from
windowStart to windowEnd. -/
theorem start_within_closed_window {ρ : Type} (lib : RRuleLib ρ)
    (windowStart windowEnd : Int) (filterType : String) (data : List Schedule)
    (hws : 1000 ∣ windowStart) (e : CalendarEvent)
    (he : e ∈ queryFn lib windowStart windowEnd filterType data) :
    (∃ s ∈ data, e = baseEvent s) ∨ (windowStart ≤ e.start ∧ e.start ≤ windowEnd) := by
  unfold queryFn at he
  rw [List.mem_flatMap] at he
  obtain ⟨s, hs, hes⟩ := he
  rcases mem_expandSchedule_events lib windowStart windowEnd filterType s e hes with h | h
  · exact Or.inl ⟨s, List.mem_of_mem_take hs, h⟩
  · obtain ⟨text, rule, occurrences, t, -, -, henum, ht, rfl⟩ := h
    rw [mem_between lib rule _ _ t occurrences henum] at ht
    refine Or.inr ⟨?_, ?_⟩
    · exact le_formatISO windowStart t hws ht.2.1
    · exact le_trans (formatISO_le t) ht.2.2

/-- Witness for C3 as amended: the second Monday occurrence in the window of March 2024. -/
theorem start_within_closed_window_witness :
    (1000 ∣ marchStart ∧
      occurrenceEvent (baseEvent weeklyRecord) 3600000 secondMonday ∈
        queryFn mondayLib marchStart aprilStart "all" [weeklyRecord, oneOffRecord]) ∧
    ((∃ s ∈ [weeklyRecord, oneOffRecord],
        occurrenceEvent (baseEvent weeklyRecord) 3600000 secondMonday = baseEvent s) ∨
      (marchStart ≤ (occurrenceEvent (baseEvent weeklyRecord) 3600000 secondMonday).start ∧
        (occurrenceEvent (baseEvent weeklyRecord) 3600000 secondMonday).start ≤ aprilStart)) :=
  ⟨by decide,
    start_within_closed_window mondayLib marchStart aprilStart "all"
      [weeklyRecord, oneOffRecord] (by decide) _ (by decide)⟩

/-- C4: for a record whose recurrenceRule parses and generates an instant equal to
windowEnd, with windowStart not after windowEnd and filter 'all' or 'auto', the expander
emits an occurrence for that instant: its start is the ISO text of windowEnd (windowEnd
itself when that is a whole second) and its id is built from windowEnd. -/
theorem window_end_inclusive {ρ : Type} (lib : RRuleLib ρ)
    (windowStart windowEnd : Int) (filterType : String) (schedule : Schedule)
    (text : String) (rule : ρ)
    (hrule : truthy? schedule.recurrenceRule = some text)
    (hparse : lib.fromString text = some rule)
    (hgen : ∃ series, lib.all rule = some series ∧ windowEnd ∈ series)
    (hwin : windowStart ≤ windowEnd)
    (hf : filterType = "all" ∨ filterType = "auto") :
    ∃ e ∈ (expandSchedule lib windowStart windowEnd filterType schedule).events,
      e.start = formatISO windowEnd ∧ e.id = occurrenceId schedule.id windowEnd ∧
        (1000 ∣ windowEnd → e.start = windowEnd) := by
  have hf2 : filterType ≠ "manual" := by
    rcases hf with hf | hf <;> subst hf <;> decide
  obtain ⟨series, hall, hmem⟩ := hgen
  have henum := between_of_all lib rule windowStart windowEnd series hall
  rw [expandSchedule_parsed lib windowStart windowEnd filterType schedule text rule _ hrule
    hparse henum hf2]
  refine ⟨occurrenceEvent (baseEvent schedule) (schedule.endTime - schedule.startTime)
    windowEnd, ?_, rfl, rfl, ?_⟩
  · exact List.mem_map.mpr
      ⟨windowEnd, (mem_between lib rule _ _ _ _ henum).mpr
        ⟨⟨series, hall, hmem⟩, hwin, le_refl _⟩, rfl⟩
  · intro hdvd
    exact formatISO_of_dvd windowEnd hdvd

/-- Witness for C4: the window ends at the second Monday occurrence, 2024-03-11 09:00 UTC. -/
theorem window_end_inclusive_witness :
    ((∃ series, mondayLib.all mondaySeries = some series ∧ secondMonday ∈ series) ∧
      marchStart ≤ secondMonday) ∧
    ∃ e ∈ (expandSchedule mondayLib marchStart secondMonday "auto" weeklyRecord).events,
      e.start = formatISO secondMonday ∧ e.id = occurrenceId weeklyRecord.id secondMonday ∧
        (1000 ∣ secondMonday → e.start = secondMonday) :=
  ⟨⟨⟨weeklySeries 1709542800000 3, rfl, by decide⟩, by decide⟩,
    window_end_inclusive mondayLib marchStart secondMonday "auto" weeklyRecord
      mondayRule mondaySeries (by decide) (by decide)
      ⟨weeklySeries 1709542800000 3, rfl, by decide⟩ (by decide) (Or.inr rfl)⟩

/-- C5 fails as stated: the records with the distinct ids `S1` (weekly Monday rule) and
`S1-1709542800000` (no rule) yield, under filter 'all', two occurrences that both carry
the id `S1-1709542800000`. -/
theorem distinct_records_shared_occurrence_id :
    ([weeklyRecord, dashedRecord].map fun s => s.id).Nodup ∧
    ¬ ((queryFn mondayLib marchStart aprilStart "all" [weeklyRecord, dashedRecord]).map
        fun e => e.id).Nodup := by
  decide

/-- C5 as amended: for records with pairwise distinct ids, none of which starts with
another record's id followed by a dash, and a rule package that generates no instant
twice, no two occurrences in the expander's output share an id, for every window and
every filter. -/
theorem occurrence_ids_nodup {ρ : Type} (lib : RRuleLib ρ)
    (windowStart windowEnd : Int) (filterType : String) (data : List Schedule)
    (hids : (data.map fun s => s.id).Nodup)
    (hdash : ∀ a ∈ data, ∀ b ∈ data, extendsByDash a.id b.id = false)
    (hlib : ∀ text rule series, lib.fromString text = some rule →
      lib.all rule = some series → series.Nodup) :
    ((queryFn lib windowStart windowEnd filterType data).map fun e => e.id).Nodup := by
  unfold queryFn
  rw [List.map_flatMap, List.nodup_flatMap]
  constructor
  · intro s _
    exact emitted_ids_nodup lib windowStart windowEnd filterType s hlib
  · have hpair : List.Pairwise (fun a b : Schedule => a.id ≠ b.id) data :=
      List.pairwise_map.mp hids
    have hpair2 : List.Pairwise (fun a b : Schedule => a.id ≠ b.id) (data.take 100) :=
      hpair.sublist (List.take_sublist _ _)
    refine List.Pairwise.imp_of_mem ?_ hpair2
    intro a b ha hb hab i hia hib
    have ha2 := List.mem_of_mem_take ha
    have hb2 := List.mem_of_mem_take hb
    have hdab := hdash a ha2 b hb2
    have hdba := hdash b hb2 a ha2
    rcases mem_emitted_ids lib windowStart windowEnd filterType a i hia with h1 | ⟨t, h1⟩ <;>
      rcases mem_emitted_ids lib windowStart windowEnd filterType b i hib with h2 | ⟨u, h2⟩
    · exact hab (h1.symm.trans h2)
    · have h3 : a.id.data = b.id.data ++ '-' :: (toString u).data := by
        rw [← occurrenceId_data, ← h2, h1]
      rw [extendsByDash_of_eq b.id a.id _ h3] at hdba
      exact Bool.noConfusion hdba
    · have h3 : b.id.data = a.id.data ++ '-' :: (toString t).data := by
        rw [← occurrenceId_data, ← h1, h2]
      rw [extendsByDash_of_eq a.id b.id _ h3] at hdab
      exact Bool.noConfusion hdab
    · rcases extendsByDash_of_occurrenceId_eq a.id b.id t u hab (h1.symm.trans h2) with h | h
      · rw [h] at hdab; exact Bool.noConfusion hdab
      · rw [h] at hdba; exact Bool.noConfusion hdba

/-- Witness for C5 as amended: the weekly and the one-off record in the window of
March 2024. -/
theorem occurrence_ids_nodup_witness :
    (([weeklyRecord, oneOffRecord].map fun s => s.id).Nodup ∧
      ∀ a ∈ [weeklyRecord, oneOffRecord], ∀ b ∈ [weeklyRecord, oneOffRecord],
        extendsByDash a.id b.id = false) ∧
    ((queryFn mondayLib marchStart aprilStart "all" [weeklyRecord, oneOffRecord]).map
      fun e => e.id).Nodup :=
  ⟨by decide,
    occurrence_ids_nodup mondayLib marchStart aprilStart "all" [weeklyRecord, oneOffRecord]
      (by decide) (by decide)
      (by
        intro text rule series h hall
        have hr : rule = mondaySeries := by
          unfold mondayLib at h
          simp only at h
          split at h
          · exact (Option.some.inj h).symm
          · exact Option.noConfusion h
        subst hr
        have hs : series = weeklySeries 1709542800000 3 :=
          (Option.some.inj hall).symm
        subst hs
        decide)⟩

/-- C6: for a record whose recurrenceRule parses, two occurrences emitted for it that
have equal ids have equal starts, and two distinct enumerated instants never get the
same composite id. -/
theorem occurrence_id_determines_start {ρ : Type} (lib : RRuleLib ρ)
    (windowStart windowEnd : Int) (filterType : String) (schedule : Schedule)
    (text : String) (rule : ρ)
    (_hrule : truthy? schedule.recurrenceRule = some text)
    (_hparse : lib.fromString text = some rule) :
    (∀ e₁ ∈ (expandSchedule lib windowStart windowEnd filterType schedule).events,
      ∀ e₂ ∈ (expandSchedule lib windowStart windowEnd filterType schedule).events,
        e₁.id = e₂.id → e₁.start = e₂.start) ∧
    (∀ occurrences, lib.between rule windowStart windowEnd true = some occurrences →
      ∀ t ∈ occurrences, ∀ u ∈ occurrences,
        t ≠ u → occurrenceId schedule.id t ≠ occurrenceId schedule.id u) := by
  constructor
  · intro e₁ h₁ e₂ h₂ hid
    rcases mem_expandSchedule_events lib windowStart windowEnd filterType schedule e₁ h₁
      with r₁ | ⟨_, _, _, t, _, _, _, _, r₁⟩ <;>
    rcases mem_expandSchedule_events lib windowStart windowEnd filterType schedule e₂ h₂
      with r₂ | ⟨_, _, _, u, _, _, _, _, r₂⟩
    · rw [r₁, r₂]
    · exfalso
      rw [r₁, r₂] at hid
      have h3 := congrArg (fun i : String => i.data) hid
      simp [baseEvent, occurrenceEvent, occurrenceId_data] at h3
    · exfalso
      rw [r₁, r₂] at hid
      have h3 := congrArg (fun i : String => i.data) hid
      simp [baseEvent, occurrenceEvent, occurrenceId_data] at h3
    · rw [r₁, r₂] at hid
      have htu : t = u := occurrenceId_injective schedule.id t u hid
      rw [r₁, r₂, htu]
  · intro occurrences _ t _ u _ htu hid
    exact htu (occurrenceId_injective schedule.id t u hid)

/-- Witness for C6: the weekly Monday record in the window of March 2024. -/
theorem occurrence_id_determines_start_witness :
    (truthy? weeklyRecord.recurrenceRule = some mondayRule ∧
      mondayLib.fromString mondayRule = some mondaySeries) ∧
    (∀ e₁ ∈ (expandSchedule mondayLib marchStart aprilStart "all" weeklyRecord).events,
      ∀ e₂ ∈ (expandSchedule mondayLib marchStart aprilStart "all" weeklyRecord).events,
        e₁.id = e₂.id → e₁.start = e₂.start) ∧
    (∀ occurrences, mondayLib.between mondaySeries marchStart aprilStart true =
        some occurrences →
      ∀ t ∈ occurrences, ∀ u ∈ occurrences,
        t ≠ u → occurrenceId weeklyRecord.id t ≠ occurrenceId weeklyRecord.id u) :=
  ⟨by decide,
    occurrence_id_determines_start mondayLib marchStart aprilStart "all" weeklyRecord
      mondayRule mondaySeries (by decide) (by decide)⟩

/-- C7 fails as stated: the weekly Monday record lasting one hour and 500 ms yields
occurrences whose end minus start is exactly one hour, not the record's duration. -/
theorem subsecond_duration_not_preserved :
    (truthy? halfSecondRecord.recurrenceRule = some mondayRule ∧
      mondayLib.fromString mondayRule = some mondaySeries) ∧
    halfSecondRecord.endTime - halfSecondRecord.startTime = 3600500 ∧
    ∃ e ∈ (expandSchedule mondayLib marchStart aprilStart "all" halfSecondRecord).events,
      e.end_ - e.start = 3600000 ∧
        e.end_ - e.start ≠ halfSecondRecord.endTime - halfSecondRecord.startTime := by
  decide

/-- C7 as amended: for a record whose recurrenceRule parses and every occurrence emitted
for it, end minus start equals endTime - startTime whenever that duration is a whole
number of seconds (whatever the sub-second part of the starts), and in every case
differs from it by less than one second. -/
theorem duration_preserved_to_the_second {ρ : Type} (lib : RRuleLib ρ)
    (windowStart windowEnd : Int) (filterType : String) (schedule : Schedule)
    (text : String) (rule : ρ)
    (_hrule : truthy? schedule.recurrenceRule = some text)
    (_hparse : lib.fromString text = some rule)
    (e : CalendarEvent)
    (he : e ∈ (expandSchedule lib windowStart windowEnd filterType schedule).events) :
    (1000 ∣ schedule.endTime - schedule.startTime →
      e.end_ - e.start = schedule.endTime - schedule.startTime) ∧
    |e.end_ - e.start - (schedule.endTime - schedule.startTime)| < 1000 := by
  obtain ⟨t, h1, h2⟩ := event_span lib windowStart windowEnd filterType schedule e he
  rw [h1, h2]
  constructor
  · intro hd
    rw [formatISO_add_of_dvd t _ hd]
    omega
  · unfold formatISO
    rw [abs_lt]
    omega

/-- Witness for C7 as amended: the second occurrence of the weekly Monday record. -/
theorem duration_preserved_to_the_second_witness :
    ((truthy? weeklyRecord.recurrenceRule = some mondayRule ∧
      mondayLib.fromString mondayRule = some mondaySeries) ∧
      occurrenceEvent (baseEvent weeklyRecord) 3600000 secondMonday ∈
        (expandSchedule mondayLib marchStart aprilStart "all" weeklyRecord).events ∧
      1000 ∣ weeklyRecord.endTime - weeklyRecord.startTime) ∧
    (1000 ∣ weeklyRecord.endTime - weeklyRecord.startTime →
      (occurrenceEvent (baseEvent weeklyRecord) 3600000 secondMonday).end_ -
        (occurrenceEvent (baseEvent weeklyRecord) 3600000 secondMonday).start =
          weeklyRecord.endTime - weeklyRecord.startTime) ∧
    |(occurrenceEvent (baseEvent weeklyRecord) 3600000 secondMonday).end_ -
        (occurrenceEvent (baseEvent weeklyRecord) 3600000 secondMonday).start -
          (weeklyRecord.endTime - weeklyRecord.startTime)| < 1000 :=
  ⟨by decide,
    duration_preserved_to_the_second mondayLib marchStart aprilStart "all" weeklyRecord
      mondayRule mondaySeries (by decide) (by decide) _ (by decide)⟩

/-- C8: every occurrence emitted for a record has provenance 'auto' exactly when the
record carries a recurrenceRule (the field is present and not empty, the source's own
test), and 'manual' exactly when it does not. -/
theorem provenance_iff_has_rule {ρ : Type} (lib : RRuleLib ρ)
    (windowStart windowEnd : Int) (filterType : String) (schedule : Schedule)
    (e : CalendarEvent)
    (he : e ∈ (expandSchedule lib windowStart windowEnd filterType schedule).events) :
    (e.extendedProps.type = "auto" ↔ hasRule schedule = true) ∧
    (e.extendedProps.type = "manual" ↔ hasRule schedule = false) := by
  rw [event_type lib windowStart windowEnd filterType schedule e he]
  cases hasRule schedule <;> simp

/-- Witness for C8: the one-off record is emitted with provenance 'manual'. -/
theorem provenance_iff_has_rule_witness :
    baseEvent oneOffRecord ∈
      (expandSchedule mondayLib marchStart aprilStart "all" oneOffRecord).events ∧
    ((baseEvent oneOffRecord).extendedProps.type = "auto" ↔ hasRule oneOffRecord = true) ∧
    ((baseEvent oneOffRecord).extendedProps.type = "manual" ↔ hasRule oneOffRecord = false) :=
  ⟨by decide,
    provenance_iff_has_rule mondayLib marchStart aprilStart "all" oneOffRecord _ (by decide)⟩

/-- C9: every occurrence emitted for a record has the record's description as title when
a description is present (not absent, null or empty, the source's own test), and the
placeholder 'Study Session' otherwise. -/
theorem title_is_description_or_placeholder {ρ : Type} (lib : RRuleLib ρ)
    (windowStart windowEnd : Int) (filterType : String) (schedule : Schedule)
    (e : CalendarEvent)
    (he : e ∈ (expandSchedule lib windowStart windowEnd filterType schedule).events) :
    (∀ d, truthy? schedule.description = some d → e.title = d) ∧
    (truthy? schedule.description = none → e.title = "Study Session") := by
  rw [event_title lib windowStart windowEnd filterType schedule e he]
  constructor
  · intro d hd
    rw [hd]; rfl
  · intro hd
    rw [hd]; rfl

/-- Witness for C9: the one-off record keeps its description as title. -/
theorem title_is_description_or_placeholder_witness :
    baseEvent oneOffRecord ∈
      (expandSchedule mondayLib marchStart aprilStart "all" oneOffRecord).events ∧
    (∀ d, truthy? oneOffRecord.description = some d → (baseEvent oneOffRecord).title = d) ∧
    (truthy? oneOffRecord.description = none →
      (baseEvent oneOffRecord).title = "Study Session") :=
  ⟨by decide,
    title_is_description_or_placeholder mondayLib marchStart aprilStart "all" oneOffRecord _
      (by decide)⟩

/-- C10, the code at the failing input: under filter 'manual' the test
`schedule.recurrenceRule && filterType !== 'manual'` fails for the weekly Monday record,
which so reaches the last `return` and is emitted as its base occurrence, tagged 'auto',
where the claim has nothing emitted; the other case of that `return`, a record without
rule under filter 'auto', emits nothing; the occurrence emitted under 'manual' is
dropped only afterwards, by `filteredEvents`. -/
theorem recurring_record_emitted_under_manual :
    hasRule weeklyRecord = true ∧
    (expandSchedule mondayLib marchStart aprilStart "manual" weeklyRecord).events =
      [baseEvent weeklyRecord] ∧
    (expandSchedule mondayLib marchStart aprilStart "manual" weeklyRecord).events ≠ [] ∧
    (baseEvent weeklyRecord).extendedProps.type = "auto" ∧
    (hasRule oneOffRecord = false ∧
      (expandSchedule mondayLib marchStart aprilStart "auto" oneOffRecord).events = []) ∧
    filteredEvents "manual"
      (expandSchedule mondayLib marchStart aprilStart "manual" weeklyRecord).events = [] := by
  decide

/-! ## The provenance filter -/

theorem filteredEvents_flatMap {α : Type} (f : String) (l : List α)
    (g : α → List CalendarEvent) :
    filteredEvents f (l.flatMap g) = l.flatMap fun x => filteredEvents f (g x) := by
  induction l with
  | nil => rfl
  | cons x l ih =>
    simp only [List.flatMap_cons]
    rw [← ih]
    simp [filteredEvents, List.filter_append]

theorem filteredEvents_eq_self (f : String) (l : List CalendarEvent)
    (h : ∀ e ∈ l, e.extendedProps.type = f) : filteredEvents f l = l := by
  unfold filteredEvents
  rw [List.filter_eq_self]
  intro e he
  simp [h e he]

theorem filteredEvents_eq_nil (f : String) (l : List CalendarEvent) (hf : f ≠ "all")
    (h : ∀ e ∈ l, e.extendedProps.type ≠ f) : filteredEvents f l = [] := by
  unfold filteredEvents
  rw [List.filter_eq_nil_iff]
  intro e he
  simp [hf, h e he]

theorem auto_ne_manual : ("auto" : String) ≠ "manual" := by decide

theorem filteredEvents_record (p : String) (hp : p = "auto" ∨ p = "manual") {ρ : Type}
    (lib : RRuleLib ρ) (ws we : Int) (s : Schedule) :
    filteredEvents p (expandSchedule lib ws we "all" s).events =
      filteredEvents p (expandSchedule lib ws we p s).events := by
  cases hrule : hasRule s with
  | false =>
    rw [expandSchedule_noRule lib ws we "all" s hrule, expandSchedule_noRule lib ws we p s hrule]
    rcases hp with hp | hp <;> subst hp
    · simp [filteredEvents, baseEvent, hrule]
    · simp
  | true =>
    rcases hp with hp | hp <;> subst hp
    · have h1 : (expandSchedule lib ws we "all" s).events =
          (expandSchedule lib ws we "auto" s).events := by
        unfold expandSchedule
        cases h : truthy? s.recurrenceRule with
        | none => simp [hasRule, h] at hrule
        | some text => simp
      rw [h1]
    · rw [filteredEvents_eq_nil "manual" _ (by decide), filteredEvents_eq_nil "manual" _ (by decide)]
      · intro e he
        rw [event_type lib ws we "manual" s e he, hrule]
        exact auto_ne_manual
      · intro e he
        rw [event_type lib ws we "all" s e he, hrule]
        exact auto_ne_manual

theorem queryFn_type {ρ : Type} (lib : RRuleLib ρ) (ws we : Int) (f : String)
    (data : List Schedule) (e : CalendarEvent) (he : e ∈ queryFn lib ws we f data) :
    e.extendedProps.type = "auto" ∨ e.extendedProps.type = "manual" := by
  unfold queryFn at he
  obtain ⟨s, _, hes⟩ := List.mem_flatMap.mp he
  rw [event_type lib ws we f s e hes]
  cases hasRule s <;> simp

theorem mem_filteredEvents (f : String) (l : List CalendarEvent) (e : CalendarEvent) :
    e ∈ filteredEvents f l ↔ e ∈ l ∧ (f = "all" ∨ e.extendedProps.type = f) := by
  unfold filteredEvents
  rw [List.mem_filter]
  by_cases hf : f = "all" <;> simp [hf]

/-- C11: the events handed to the calendar under filter 'manual' are all emitted by a
record of the list that has no recurrenceRule and by no record that has one; under filter
'auto' they are all emitted by a record of the list that has a recurrenceRule and by no
record without one. -/
theorem calendar_events_match_filter {ρ : Type} (lib : RRuleLib ρ)
    (windowStart windowEnd : Int) (data : List Schedule) :
    (∀ e ∈ filteredEvents "manual" (queryFn lib windowStart windowEnd "manual" data),
      (∃ s ∈ data, hasRule s = false ∧
        e ∈ (expandSchedule lib windowStart windowEnd "manual" s).events) ∧
      ∀ s, e ∈ (expandSchedule lib windowStart windowEnd "manual" s).events →
        hasRule s = false) ∧
    (∀ e ∈ filteredEvents "auto" (queryFn lib windowStart windowEnd "auto" data),
      (∃ s ∈ data, hasRule s = true ∧
        e ∈ (expandSchedule lib windowStart windowEnd "auto" s).events) ∧
      ∀ s, e ∈ (expandSchedule lib windowStart windowEnd "auto" s).events →
        hasRule s = true) := by
  constructor
  · intro e he
    rw [mem_filteredEvents] at he
    obtain ⟨hq, ht⟩ := he
    have htype : e.extendedProps.type = "manual" := by
      rcases ht with ht | ht
      · exact absurd ht (by decide)
      · exact ht
    have key : ∀ s, e ∈ (expandSchedule lib windowStart windowEnd "manual" s).events →
        hasRule s = false := by
      intro s hs
      have h := event_type lib windowStart windowEnd "manual" s e hs
      rw [htype] at h
      cases hr : hasRule s
      · rfl
      · rw [hr] at h; exact absurd h (by decide)
    unfold queryFn at hq
    obtain ⟨s, hs, hes⟩ := List.mem_flatMap.mp hq
    exact ⟨⟨s, List.mem_of_mem_take hs, key s hes, hes⟩, key⟩
  · intro e he
    rw [mem_filteredEvents] at he
    obtain ⟨hq, ht⟩ := he
    have htype : e.extendedProps.type = "auto" := by
      rcases ht with ht | ht
      · exact absurd ht (by decide)
      · exact ht
    have key : ∀ s, e ∈ (expandSchedule lib windowStart windowEnd "auto" s).events →
        hasRule s = true := by
      intro s hs
      have h := event_type lib windowStart windowEnd "auto" s e hs
      rw [htype] at h
      cases hr : hasRule s
      · rw [hr] at h; exact absurd h (by decide)
      · rfl
    unfold queryFn at hq
    obtain ⟨s, hs, hes⟩ := List.mem_flatMap.mp hq
    exact ⟨⟨s, List.mem_of_mem_take hs, key s hes, hes⟩, key⟩

/-- C12: for every list of records and every window, re-filtering the full expansion by
'auto' or by 'manual' gives the same events as expanding afresh with that filter and
filtering; every occurrence of the full expansion is in exactly one of the two results,
and the full expansion is a rearrangement of the two results put together. -/
theorem refilter_equals_fresh_expansion {ρ : Type} (lib : RRuleLib ρ)
    (windowStart windowEnd : Int) (data : List Schedule) :
    filteredEvents "auto" (queryFn lib windowStart windowEnd "all" data) =
      filteredEvents "auto" (queryFn lib windowStart windowEnd "auto" data) ∧
    filteredEvents "manual" (queryFn lib windowStart windowEnd "all" data) =
      filteredEvents "manual" (queryFn lib windowStart windowEnd "manual" data) ∧
    (∀ e ∈ queryFn lib windowStart windowEnd "all" data,
      (e ∈ filteredEvents "auto" (queryFn lib windowStart windowEnd "auto" data) ∧
        e ∉ filteredEvents "manual" (queryFn lib windowStart windowEnd "manual" data)) ∨
      (e ∉ filteredEvents "auto" (queryFn lib windowStart windowEnd "auto" data) ∧
        e ∈ filteredEvents "manual" (queryFn lib windowStart windowEnd "manual" data))) ∧
    (filteredEvents "auto" (queryFn lib windowStart windowEnd "auto" data) ++
      filteredEvents "manual" (queryFn lib windowStart windowEnd "manual" data)).Perm
        (queryFn lib windowStart windowEnd "all" data) := by
  have hrefilter : ∀ p, p = "auto" ∨ p = "manual" →
      filteredEvents p (queryFn lib windowStart windowEnd "all" data) =
        filteredEvents p (queryFn lib windowStart windowEnd p data) := by
    intro p hp
    unfold queryFn
    rw [filteredEvents_flatMap, filteredEvents_flatMap]
    congr 1
    funext s
    exact filteredEvents_record p hp lib windowStart windowEnd s
  have hauto := hrefilter "auto" (Or.inl rfl)
  have hmanual := hrefilter "manual" (Or.inr rfl)
  refine ⟨hauto, hmanual, ?_, ?_⟩
  · intro e he
    rw [← hauto, ← hmanual, mem_filteredEvents, mem_filteredEvents]
    rcases queryFn_type lib windowStart windowEnd "all" data e he with h | h
    · left
      refine ⟨⟨he, Or.inr h⟩, ?_⟩
      rintro ⟨_, h2 | h2⟩
      · exact absurd h2 (by decide)
      · rw [h] at h2; exact absurd h2 (by decide)
    · right
      refine ⟨?_, ⟨he, Or.inr h⟩⟩
      rintro ⟨_, h2 | h2⟩
      · exact absurd h2 (by decide)
      · rw [h] at h2; exact absurd h2 (by decide)
  · rw [← hauto, ← hmanual]
    have hm : filteredEvents "manual" (queryFn lib windowStart windowEnd "all" data) =
        (queryFn lib windowStart windowEnd "all" data).filter
          (fun e => !decide (e.extendedProps.type = "auto")) := by
      unfold filteredEvents
      apply List.filter_congr
      intro e he
      rcases queryFn_type lib windowStart windowEnd "all" data e he with h | h <;>
        simp [h]
    have ha : filteredEvents "auto" (queryFn lib windowStart windowEnd "all" data) =
        (queryFn lib windowStart windowEnd "all" data).filter
          (fun e => decide (e.extendedProps.type = "auto")) := by
      unfold filteredEvents
      simp
    rw [hm, ha]
    exact List.filter_append_perm _ _

/-- C13: the provenance re-filter is idempotent for every filter value, in particular
for 'all', 'auto' and 'manual': filtering an already filtered list again with the same
filter returns it unchanged. -/
theorem filteredEvents_idempotent (filterType : String) (events : List CalendarEvent) :
    filteredEvents filterType (filteredEvents filterType events) =
      filteredEvents filterType events := by
  unfold filteredEvents
  rw [List.filter_filter]
  apply List.filter_congr
  intro e _
  simp


/-! ## Runs of the expander compared -/

theorem between_congr {ρ₁ ρ₂ : Type} (lib₁ : RRuleLib ρ₁) (lib₂ : RRuleLib ρ₂)
    (r₁ : ρ₁) (r₂ : ρ₂) (a b : Int) (inc : Bool) (h : lib₁.all r₁ = lib₂.all r₂) :
    lib₁.between r₁ a b inc = lib₂.between r₂ a b inc := by
  unfold RRuleLib.between
  rw [h]

theorem expandSchedule_events_congr {ρ₁ ρ₂ : Type} (lib₁ : RRuleLib ρ₁) (lib₂ : RRuleLib ρ₂)
    (ws we : Int) (f : String) (s : Schedule)
    (hagree : ∀ text, truthy? s.recurrenceRule = some text →
      (lib₁.fromString text).map lib₁.all = (lib₂.fromString text).map lib₂.all) :
    (expandSchedule lib₁ ws we f s).events = (expandSchedule lib₂ ws we f s).events := by
  cases hrule : truthy? s.recurrenceRule with
  | none => simp [expandSchedule, hrule]
  | some text =>
    by_cases hf : f = "manual"
    · subst hf
      rw [expandSchedule_manual, expandSchedule_manual]
    · have h := hagree text hrule
      cases h₁ : lib₁.fromString text with
      | none =>
        cases h₂ : lib₂.fromString text with
        | none =>
          rw [expandSchedule_failed lib₁ ws we f s text hrule h₁ hf,
            expandSchedule_failed lib₂ ws we f s text hrule h₂ hf]
        | some r₂ => simp [h₁, h₂] at h
      | some r₁ =>
        cases h₂ : lib₂.fromString text with
        | none => simp [h₁, h₂] at h
        | some r₂ =>
          rw [h₁, h₂] at h
          have hb := between_congr lib₁ lib₂ r₁ r₂ ws we true (Option.some.inj h)
          cases henum : lib₂.between r₂ ws we true with
          | none =>
            rw [expandSchedule_threw lib₁ ws we f s text r₁ hrule h₁ (hb.trans henum) hf,
              expandSchedule_threw lib₂ ws we f s text r₂ hrule h₂ henum hf]
          | some occurrences =>
            rw [expandSchedule_parsed lib₁ ws we f s text r₁ occurrences hrule h₁
                (hb.trans henum) hf,
              expandSchedule_parsed lib₂ ws we f s text r₂ occurrences hrule h₂ henum hf]

theorem queryFn_of_length_le {ρ : Type} (lib : RRuleLib ρ) (ws we : Int) (f : String)
    (data : List Schedule) (h : data.length ≤ 100) :
    queryFn lib ws we f data =
      data.flatMap fun s => (expandSchedule lib ws we f s).events := by
  unfold queryFn
  rw [List.take_of_length_le h]

theorem formatISO_mono (t u : Int) (h : t ≤ u) : formatISO t ≤ formatISO u := by
  unfold formatISO; omega

/-- C14 fails as stated: the same record, window and filter, expanded once with the rule
parsed at 2024-03-04 09:00 UTC and once with the rule parsed at 2024-03-10 12:00 UTC,
give different output sequences. -/
theorem two_runs_differ :
    queryFn (clockLib firstMonday) marchStart marchLast "all" [scenarioRecord] ≠
      queryFn (clockLib sundayNoon) marchStart marchLast "all" [scenarioRecord] := by
  decide

/-- C14 as amended: two runs on identical records, window and filter produce identical
output sequences whenever, in both runs, the rule package gives every rule text of the
records the same outcome: rejected in both, or parsed in both with the same outcome of
the enumeration, the same instants or an exception. -/
theorem runs_agree_when_rules_agree {ρ₁ ρ₂ : Type} (lib₁ : RRuleLib ρ₁) (lib₂ : RRuleLib ρ₂)
    (windowStart windowEnd : Int) (filterType : String) (data : List Schedule)
    (hagree : ∀ s ∈ data, ∀ text, truthy? s.recurrenceRule = some text →
      (lib₁.fromString text).map lib₁.all = (lib₂.fromString text).map lib₂.all) :
    queryFn lib₁ windowStart windowEnd filterType data =
      queryFn lib₂ windowStart windowEnd filterType data := by
  unfold queryFn
  apply List.flatMap_congr
  intro s hs
  exact expandSchedule_events_congr lib₁ lib₂ windowStart windowEnd filterType s
    (hagree s (List.mem_of_mem_take hs))

/-- Witness for C14 as amended: a rule text with its own series start, parsed at two
different times. -/
theorem runs_agree_when_rules_agree_witness :
    (∀ s ∈ [weeklyRecord, oneOffRecord], ∀ text, truthy? s.recurrenceRule = some text →
      ((clockLib firstMonday).fromString text).map (clockLib firstMonday).all =
        ((clockLib sundayNoon).fromString text).map (clockLib sundayNoon).all) ∧
    queryFn (clockLib firstMonday) marchStart aprilStart "all" [weeklyRecord, oneOffRecord] =
      queryFn (clockLib sundayNoon) marchStart aprilStart "all" [weeklyRecord, oneOffRecord] :=
  have h : ∀ s ∈ [weeklyRecord, oneOffRecord], ∀ text, truthy? s.recurrenceRule = some text →
      ((clockLib firstMonday).fromString text).map (clockLib firstMonday).all =
        ((clockLib sundayNoon).fromString text).map (clockLib sundayNoon).all := by
    intro s hs text ht
    simp only [List.mem_cons, List.mem_singleton, List.not_mem_nil, or_false] at hs
    rcases hs with rfl | rfl
    · have : text = mondayRule := by
        have h2 : truthy? weeklyRecord.recurrenceRule = some mondayRule := by decide
        rw [h2] at ht
        exact (Option.some.inj ht).symm
      subst this
      decide
    · have h2 : truthy? oneOffRecord.recurrenceRule = none := by decide
      rw [h2] at ht
      exact Option.noConfusion ht
  ⟨h, runs_agree_when_rules_agree (clockLib firstMonday) (clockLib sundayNoon) marchStart
    aprilStart "all" [weeklyRecord, oneOffRecord] h⟩

/-- C15 fails as stated: the record with a rejected rule text that starts at
2024-03-05 10:00:00.500 UTC is emitted as one occurrence whose start is 10:00:00.000, not
the record's startTime. -/
theorem fallback_start_is_cut_to_the_second :
    (truthy? halfSecondMalformedRecord.recurrenceRule = some "INVALID" ∧
      mondayLib.fromString "INVALID" = none) ∧
    (expandSchedule mondayLib marchStart aprilStart "all" halfSecondMalformedRecord).events =
      [baseEvent halfSecondMalformedRecord] ∧
    (baseEvent halfSecondMalformedRecord).start = 1709632800000 ∧
    (baseEvent halfSecondMalformedRecord).start ≠ halfSecondMalformedRecord.startTime := by
  decide

/-- C15 as amended: for a record whose recurrenceRule fails to parse and for filter
'all' or 'auto', the expander returns normally and emits exactly one occurrence, the
un-expanded base occurrence: its id is the record's id and its start and end are the
record's startTime and endTime cut to the whole second, as their ISO texts denote them
(these instants themselves when they are whole seconds). -/
theorem malformed_rule_falls_back {ρ : Type} (lib : RRuleLib ρ)
    (windowStart windowEnd : Int) (filterType : String) (schedule : Schedule)
    (text : String)
    (hrule : truthy? schedule.recurrenceRule = some text)
    (hparse : lib.fromString text = none)
    (hf : filterType = "all" ∨ filterType = "auto") :
    ∃ e, (expandSchedule lib windowStart windowEnd filterType schedule).events = [e] ∧
      e = baseEvent schedule ∧ e.id = schedule.id ∧
      e.start = formatISO schedule.startTime ∧ e.end_ = formatISO schedule.endTime ∧
      (1000 ∣ schedule.startTime → e.start = schedule.startTime) ∧
      (1000 ∣ schedule.endTime → e.end_ = schedule.endTime) := by
  have hf2 : filterType ≠ "manual" := by
    rcases hf with hf | hf <;> subst hf <;> decide
  refine ⟨baseEvent schedule,
    expandSchedule_failed lib windowStart windowEnd filterType schedule text hrule hparse hf2,
    rfl, rfl, rfl, rfl, ?_, ?_⟩
  · intro h; exact formatISO_of_dvd _ h
  · intro h; exact formatISO_of_dvd _ h

/-- Witness for C15 as amended: the record with the rule text `INVALID` under filter
'all'. -/
theorem malformed_rule_falls_back_witness :
    (truthy? malformedRecord.recurrenceRule = some "INVALID" ∧
      mondayLib.fromString "INVALID" = none) ∧
    ∃ e, (expandSchedule mondayLib marchStart aprilStart "all" malformedRecord).events = [e] ∧
      e = baseEvent malformedRecord ∧ e.id = malformedRecord.id ∧
      e.start = formatISO malformedRecord.startTime ∧
      e.end_ = formatISO malformedRecord.endTime ∧
      (1000 ∣ malformedRecord.startTime → e.start = malformedRecord.startTime) ∧
      (1000 ∣ malformedRecord.endTime → e.end_ = malformedRecord.endTime) :=
  ⟨by decide,
    malformed_rule_falls_back mondayLib marchStart aprilStart "all" malformedRecord "INVALID"
      (by decide) (by decide) (Or.inl rfl)⟩

/-- C16: for a list of at most 100 records, the output is the concatenation, in input
order, of the emissions of the records, each computed from that record, the window and
the filter alone, so that replacing one record changes only its own segment; and, the
rule package yielding the instants of a rule in ascending order, the starts within one
record's emission are in ascending order. -/
theorem output_is_concatenation_in_order {ρ : Type} (lib : RRuleLib ρ)
    (windowStart windowEnd : Int) (filterType : String) (data : List Schedule)
    (hlen : data.length ≤ 100)
    (hasc : ∀ text rule series, lib.fromString text = some rule →
      lib.all rule = some series → series.Pairwise (· ≤ ·)) :
    queryFn lib windowStart windowEnd filterType data =
      data.flatMap (fun s => (expandSchedule lib windowStart windowEnd filterType s).events) ∧
    (∀ before s after, data = before ++ s :: after → ∀ s',
      queryFn lib windowStart windowEnd filterType (before ++ s' :: after) =
        queryFn lib windowStart windowEnd filterType before ++
          (expandSchedule lib windowStart windowEnd filterType s').events ++
            queryFn lib windowStart windowEnd filterType after) ∧
    (∀ s ∈ data,
      ((expandSchedule lib windowStart windowEnd filterType s).events.map
        fun e => e.start).Pairwise (· ≤ ·)) := by
  refine ⟨queryFn_of_length_le lib windowStart windowEnd filterType data hlen, ?_, ?_⟩
  · intro before s after hdata s'
    have hl : before.length + (after.length + 1) ≤ 100 := by
      rw [hdata] at hlen
      simpa using hlen
    rw [queryFn_of_length_le lib _ _ _ (before ++ s' :: after) (by simpa using hl),
      queryFn_of_length_le lib _ _ _ before (by omega),
      queryFn_of_length_le lib _ _ _ after (by omega)]
    simp [List.flatMap_append]
  · intro s _
    unfold expandSchedule
    split
    · rename_i text h1 h2
      split
      · rename_i rule h3
        split
        · rename_i occurrences h4
          obtain ⟨series, hall, rfl⟩ := between_eq_some lib rule _ _ occurrences h4
          simp only [List.map_map]
          rw [List.pairwise_map]
          have hb : (series.filter fun d =>
              decide (windowStart ≤ d) && decide (d ≤ windowEnd)).Pairwise (· ≤ ·) :=
            (hasc text rule series h3 hall).filter _
          exact hb.imp fun {t u} htu => formatISO_mono t u htu
        · simp
      · simp
    · split <;> simp

theorem mondayLib_parsed (text : String) (rule : WeeklyRule)
    (h : mondayLib.fromString text = some rule) : rule = mondaySeries := by
  unfold mondayLib at h
  simp only at h
  split at h
  · exact (Option.some.inj h).symm
  · exact Option.noConfusion h

/-- Witness for C16: a weekly record, a record with a rejected rule and a one-off record
in the window of March 2024. -/
theorem output_is_concatenation_in_order_witness :
    mixedRecords.length ≤ 100 ∧
    queryFn mondayLib marchStart aprilStart "all" mixedRecords =
      mixedRecords.flatMap
        (fun s => (expandSchedule mondayLib marchStart aprilStart "all" s).events) ∧
    (∀ before s after, mixedRecords = before ++ s :: after → ∀ s',
      queryFn mondayLib marchStart aprilStart "all" (before ++ s' :: after) =
        queryFn mondayLib marchStart aprilStart "all" before ++
          (expandSchedule mondayLib marchStart aprilStart "all" s').events ++
            queryFn mondayLib marchStart aprilStart "all" after) ∧
    (∀ s ∈ mixedRecords,
      ((expandSchedule mondayLib marchStart aprilStart "all" s).events.map
        fun e => e.start).Pairwise (· ≤ ·)) :=
  ⟨by decide,
    output_is_concatenation_in_order mondayLib marchStart aprilStart "all" mixedRecords
      (by decide)
      (by
        intro text rule series h hall
        rw [mondayLib_parsed text rule h] at hall
        have hs : series = weeklySeries 1709542800000 3 :=
          (Option.some.inj hall).symm
        subst hs
        decide)⟩

theorem not_mentions_of_not_mem (message part : String) (c : Char) (hc : c ∈ part.data)
    (hn : c ∉ message.data) : ¬ mentions message part := by
  intro h
  exact hn (h.subset hc)

theorem parseFailureLog_mentions_id (s : Schedule) (text : String) :
    mentions (parseFailureLog s text) s.id := by
  unfold mentions parseFailureLog
  simp only [String.data_append]
  exact ⟨"Failed to parse recurrence rule for schedule ".data, ": ".data ++ text.data,
    by simp⟩

/-- C17 fails as stated: for the record `S2`, whose rule text is rejected, the one
message passed to `setError` does not contain the record's id. -/
theorem page_error_omits_record_id :
    (truthy? malformedRecord.recurrenceRule = some "INVALID" ∧
      mondayLib.fromString "INVALID" = none) ∧
    (expandSchedule mondayLib marchStart aprilStart "all" malformedRecord).errors =
      [invalidRulesMessage] ∧
    ¬ mentions invalidRulesMessage malformedRecord.id :=
  ⟨by decide, by decide, not_mentions_of_not_mem _ _ '2' (by decide) (by decide)⟩

/-- C17 as amended: whenever a record's recurrenceRule fails to parse, the message set
through `setError` is one fixed text, the same for every record, and the record's id is
named only in the line written with `console.error`. -/
theorem parse_failure_reporting {ρ : Type} (lib : RRuleLib ρ)
    (windowStart windowEnd : Int) (filterType : String) (schedule : Schedule)
    (text : String)
    (hrule : truthy? schedule.recurrenceRule = some text)
    (hparse : lib.fromString text = none)
    (hf : filterType ≠ "manual") :
    (expandSchedule lib windowStart windowEnd filterType schedule).errors =
      [invalidRulesMessage] ∧
    (expandSchedule lib windowStart windowEnd filterType schedule).logged =
      [parseFailureLog schedule text] ∧
    mentions (parseFailureLog schedule text) schedule.id := by
  refine ⟨?_, ?_, parseFailureLog_mentions_id schedule text⟩
  · simp [expandSchedule, hrule, hparse, hf]
  · simp [expandSchedule, hrule, hparse, hf]

/-- Witness for C17 as amended: the record with the rule text `INVALID`. -/
theorem parse_failure_reporting_witness :
    (truthy? malformedRecord.recurrenceRule = some "INVALID" ∧
      mondayLib.fromString "INVALID" = none ∧ ("auto" : String) ≠ "manual") ∧
    (expandSchedule mondayLib marchStart aprilStart "auto" malformedRecord).errors =
      [invalidRulesMessage] ∧
    (expandSchedule mondayLib marchStart aprilStart "auto" malformedRecord).logged =
      [parseFailureLog malformedRecord "INVALID"] ∧
    mentions (parseFailureLog malformedRecord "INVALID") malformedRecord.id :=
  ⟨by decide,
    parse_failure_reporting mondayLib marchStart aprilStart "auto" malformedRecord "INVALID"
      (by decide) (by decide) (by decide)⟩

/-- C18: only the first 100 records contribute: the output on a list equals the output
on its first 100 elements, and so do the `setError` calls and the `console.error` lines;
records appended after the first 100 add no event, no error and no warning, whatever
they are. -/
theorem only_first_hundred_contribute {ρ : Type} (lib : RRuleLib ρ)
    (windowStart windowEnd : Int) (filterType : String) (data extra : List Schedule) :
    (queryFn lib windowStart windowEnd filterType data =
        queryFn lib windowStart windowEnd filterType (data.take 100) ∧
      queryFnErrors lib windowStart windowEnd filterType data =
        queryFnErrors lib windowStart windowEnd filterType (data.take 100) ∧
      queryFnLogged lib windowStart windowEnd filterType data =
        queryFnLogged lib windowStart windowEnd filterType (data.take 100)) ∧
    (100 ≤ data.length →
      queryFn lib windowStart windowEnd filterType (data ++ extra) =
        queryFn lib windowStart windowEnd filterType data ∧
      queryFnErrors lib windowStart windowEnd filterType (data ++ extra) =
        queryFnErrors lib windowStart windowEnd filterType data ∧
      queryFnLogged lib windowStart windowEnd filterType (data ++ extra) =
        queryFnLogged lib windowStart windowEnd filterType data) := by
  constructor
  · unfold queryFn queryFnErrors queryFnLogged
    rw [List.take_take]
    simp
  · intro h100
    have htake : (data ++ extra).take 100 = data.take 100 := by
      rw [List.take_append_eq_append_take]
      have : 100 - data.length = 0 := by omega
      simp [this]
    unfold queryFn queryFnErrors queryFnLogged
    rw [htake]
    exact ⟨rfl, rfl, rfl⟩

/-! ## Weekly series -/

theorem range_filter_window (n q : Nat) (h : q + 4 < n) :
    (List.range n).filter (fun k => decide (q < k) && decide (k ≤ q + 4)) =
      [q + 1, q + 2, q + 3, q + 4] := by
  have hs1 : ((List.range n).filter
      (fun k => decide (q < k) && decide (k ≤ q + 4))).Sorted (· < ·) :=
    (List.sorted_lt_range n).filter _
  have hs2 : [q + 1, q + 2, q + 3, q + 4].Sorted (· < ·) := by
    simp [List.Sorted]
  apply List.eq_of_perm_of_sorted ?_ hs1 hs2
  apply (List.perm_ext_iff_of_nodup hs1.nodup hs2.nodup).mpr
  intro k
  simp only [List.mem_filter, List.mem_range, Bool.and_eq_true, decide_eq_true_eq,
    List.mem_cons, List.mem_singleton, List.not_mem_nil, or_false]
  omega

theorem weeklySeries_window (a ws : Int) (n : Nat) (ha : a ≤ ws)
    (hoff : (ws - a) % weekMs ≠ 0)
    (hcover : ws + 4 * weekMs ≤ a + weekMs * ((n : Int) - 1)) :
    ∃ t : Int, ws < t ∧
      (weeklySeries a n).filter
          (fun d => decide (ws ≤ d) && decide (d ≤ ws + 4 * weekMs)) =
        [t, t + weekMs, t + 2 * weekMs, t + 3 * weekMs] := by
  unfold weekMs at *
  obtain ⟨q, hq⟩ : ∃ q : Nat, (q : Int) = (ws - a) / 604800000 :=
    ⟨((ws - a) / 604800000).toNat, by omega⟩
  refine ⟨a + 604800000 * ((q : Int) + 1), by omega, ?_⟩
  unfold weeklySeries weekMs
  rw [List.filter_map]
  have hfilter : (List.range n).filter
      ((fun d => decide (ws ≤ d) && decide (d ≤ ws + 4 * 604800000)) ∘
        fun k : Nat => a + 604800000 * (k : Int)) =
      (List.range n).filter (fun k => decide (q < k) && decide (k ≤ q + 4)) := by
    apply List.filter_congr
    intro k _
    simp only [Function.comp]
    congr 1
    · rw [decide_eq_decide]; omega
    · rw [decide_eq_decide]; omega
  rw [hfilter, range_filter_window n q (by omega)]
  simp only [List.map_cons, List.map_nil, List.cons.injEq, and_true]
  push_cast
  refine ⟨?_, ?_, ?_, ?_⟩ <;> ring

/-- C19 fails as stated: with the rule parsed at 2024-03-10 12:00 UTC, the record of the
scenario yields occurrences starting on 2024-03-10, 03-17 and 03-24 at 12:00 UTC, none of
them at the three instants named in the claim. -/
theorem scenario_follows_parse_time :
    ((expandSchedule (clockLib sundayNoon) marchStart marchLast "all"
        scenarioRecord).events.map fun e => e.start) =
      [1710072000000, 1710676800000, 1711281600000] ∧
    ((expandSchedule (clockLib sundayNoon) marchStart marchLast "all"
        scenarioRecord).events.map fun e => e.start) ≠
      [1709542800000, 1710147600000, 1710752400000] := by
  decide

/-- C19 as amended: for the record of the scenario, the window from 2024-03-01 to
2024-03-31 and filter 'all', when the rule package parses the rule text of the record to
the weekly series of three instants that starts at the record's start, 2024-03-04 09:00
UTC (the text names no series start, so the package anchors the series at the time of
parsing, with the milliseconds cleared), the expander emits exactly three occurrences,
starting 2024-03-04, 03-11 and 03-18 at 09:00 UTC and ending one hour later, with ids
`S1-<start in epoch ms>`, the title 'Study Session' and provenance 'auto'. -/
theorem scenario_when_series_starts_at_record_start {ρ : Type} (lib : RRuleLib ρ)
    (rule : ρ)
    (hparse : lib.fromString plainWeeklyRule = some rule)
    (hseries : lib.all rule = some (weeklySeries scenarioRecord.startTime 3)) :
    (expandSchedule lib marchStart marchLast "all" scenarioRecord).events =
      [{ title := "Study Session", start := 1709542800000, end_ := 1709546400000,
         id := "S1-1709542800000", backgroundColor := "#4CAF50", borderColor := "#4CAF50",
         extendedProps := { type := "auto" } },
       { title := "Study Session", start := 1710147600000, end_ := 1710151200000,
         id := "S1-1710147600000", backgroundColor := "#4CAF50", borderColor := "#4CAF50",
         extendedProps := { type := "auto" } },
       { title := "Study Session", start := 1710752400000, end_ := 1710756000000,
         id := "S1-1710752400000", backgroundColor := "#4CAF50", borderColor := "#4CAF50",
         extendedProps := { type := "auto" } }] := by
  have henum : lib.between rule marchStart marchLast true =
      some [1709542800000, 1710147600000, 1710752400000] := by
    rw [between_of_all lib rule marchStart marchLast _ hseries]
    decide
  rw [expandSchedule_parsed lib marchStart marchLast "all" scenarioRecord plainWeeklyRule
    rule _ (by decide) hparse henum (by decide)]
  decide

/-- Witness for C19 as amended: the rule package parsing at 2024-03-04 09:00:00.000 UTC. -/
theorem scenario_when_series_starts_at_record_start_witness :
    ((clockLib firstMonday).fromString plainWeeklyRule = some mondaySeries ∧
      (clockLib firstMonday).all mondaySeries =
        some (weeklySeries scenarioRecord.startTime 3)) ∧
    ((expandSchedule (clockLib firstMonday) marchStart marchLast "all"
        scenarioRecord).events.map fun e => e.id) =
      ["S1-1709542800000", "S1-1710147600000", "S1-1710752400000"] :=
  ⟨by decide,
    by
      rw [scenario_when_series_starts_at_record_start (clockLib firstMonday) mondaySeries
        (by decide) (by decide)]
      decide⟩

/-- C20 fails as stated: in the four-week window that starts on 2024-03-01 the weekly
record with three occurrences yields 3 occurrences, and in the four-week window that
starts exactly at the first occurrence of the weekly record with ten occurrences, both
window bounds being included, that record yields 5 occurrences. -/
theorem four_week_window_other_counts :
    (expandSchedule (clockLib 0) marchStart (marchStart + 4 * weekMs) "all"
        weeklyRecord).events.length = 3 ∧
    (expandSchedule (clockLib 0) firstMonday (firstMonday + 4 * weekMs) "all"
        tenWeeksRecord).events.length = 5 := by
  decide

/-- C20 as amended: for a record whose recurrenceRule parses to a weekly series (instants
one week apart, the first at `a`) that begins no later than windowStart and extends to
windowStart + 4 weeks or beyond, whose duration D is a whole number of seconds, and for a
window of exactly four weeks whose start is not itself an instant of the series, the
expander (filter 'all' or 'auto') emits exactly 4 occurrences, consecutive starts are
exactly 7 days apart, and every occurrence has end - start = D. -/
theorem four_week_window_four_occurrences {ρ : Type} (lib : RRuleLib ρ)
    (windowStart : Int) (filterType : String) (schedule : Schedule)
    (text : String) (rule : ρ) (a : Int) (n : Nat)
    (hrule : truthy? schedule.recurrenceRule = some text)
    (hparse : lib.fromString text = some rule)
    (hf : filterType = "all" ∨ filterType = "auto")
    (hweekly : lib.all rule = some (weeklySeries a n))
    (hbegin : a ≤ windowStart)
    (hoff : (windowStart - a) % weekMs ≠ 0)
    (hcover : windowStart + 4 * weekMs ≤ a + weekMs * ((n : Int) - 1))
    (hD : 1000 ∣ schedule.endTime - schedule.startTime) :
    ∃ e₁ e₂ e₃ e₄,
      (expandSchedule lib windowStart (windowStart + 4 * weekMs) filterType
        schedule).events = [e₁, e₂, e₃, e₄] ∧
      e₂.start - e₁.start = weekMs ∧ e₃.start - e₂.start = weekMs ∧
      e₄.start - e₃.start = weekMs ∧
      ∀ e ∈ [e₁, e₂, e₃, e₄], e.end_ - e.start = schedule.endTime - schedule.startTime := by
  have hf2 : filterType ≠ "manual" := by
    rcases hf with hf | hf <;> subst hf <;> decide
  obtain ⟨t, -, ht⟩ := weeklySeries_window a windowStart n hbegin hoff hcover
  have hb : lib.between rule windowStart (windowStart + 4 * weekMs) true =
      some [t, t + weekMs, t + 2 * weekMs, t + 3 * weekMs] := by
    rw [between_of_all lib rule _ _ _ hweekly, ht]
  have hev := expandSchedule_parsed lib windowStart (windowStart + 4 * weekMs) filterType
    schedule text rule _ hrule hparse hb hf2
  simp only [List.map_cons, List.map_nil] at hev
  refine ⟨_, _, _, _, hev, ?_, ?_, ?_, ?_⟩
  · simp only [occurrenceEvent, formatISO, weekMs]; omega
  · simp only [occurrenceEvent, formatISO, weekMs]; omega
  · simp only [occurrenceEvent, formatISO, weekMs]; omega
  · intro e he
    have hmem : e ∈ (expandSchedule lib windowStart (windowStart + 4 * weekMs) filterType
        schedule).events := by
      rw [hev]; exact he
    obtain ⟨u, h1, h2⟩ := event_span lib windowStart (windowStart + 4 * weekMs) filterType
      schedule e hmem
    rw [h1, h2, formatISO_add_of_dvd u _ hD]
    omega

/-- Witness for C20 as amended: the weekly record with ten occurrences in the four weeks
from 2024-03-05 00:00 UTC. -/
theorem four_week_window_four_occurrences_witness :
    (marchFifth - firstMonday) % weekMs ≠ 0 ∧
    ∃ e₁ e₂ e₃ e₄,
      (expandSchedule (clockLib 0) marchFifth (marchFifth + 4 * weekMs) "all"
        tenWeeksRecord).events = [e₁, e₂, e₃, e₄] ∧
      e₂.start - e₁.start = weekMs ∧ e₃.start - e₂.start = weekMs ∧
      e₄.start - e₃.start = weekMs ∧
      ∀ e ∈ [e₁, e₂, e₃, e₄],
        e.end_ - e.start = tenWeeksRecord.endTime - tenWeeksRecord.startTime :=
  ⟨by decide,
    four_week_window_four_occurrences (clockLib 0) marchFifth "all" tenWeeksRecord
      tenMondaysRule { dtstart := firstMonday, count := 10 } firstMonday 10
      (by decide) (by decide) (Or.inl rfl) rfl (by decide) (by decide) (by decide)
      (by decide)⟩


/-! ## Click resolution -/

theorem takeWhile_not_dash_append (a rest : List Char) (h : '-' ∉ a) :
    (a ++ '-' :: rest).takeWhile (fun c => c != '-') = a := by
  induction a with
  | nil => simp
  | cons x a ih =>
    have hx : x ≠ '-' := fun hx => h (by simp [hx])
    have ha : '-' ∉ a := fun ha => h (by simp [ha])
    simp [List.takeWhile_cons, hx, ih ha]

theorem takeWhile_not_dash_self (a : List Char) (h : '-' ∉ a) :
    a.takeWhile (fun c => c != '-') = a := by
  induction a with
  | nil => simp
  | cons x a ih =>
    have hx : x ≠ '-' := fun hx => h (by simp [hx])
    have ha : '-' ∉ a := fun ha => h (by simp [ha])
    simp [List.takeWhile_cons, hx, ih ha]

/-- C21 fails as stated: for the one-off record whose id is the UUID
`123e4567-e89b-12d3-a456-426614174000` the handler extracts `123e4567`, which is not the
record's id. -/
theorem click_on_dashed_id_resolves_elsewhere :
    (expandSchedule mondayLib marchStart aprilStart "all" uuidRecord).events =
      [baseEvent uuidRecord] ∧
    clickedBaseId (baseEvent uuidRecord).id = "123e4567" ∧
    clickedBaseId (baseEvent uuidRecord).id ≠ uuidRecord.id := by
  decide

/-- C21 as amended: for every record whose id contains no dash and every occurrence the
expander emits for it, the base id the `eventClick` handler extracts from the occurrence
id equals the record's id, and the handler navigates to `/schedules/<record id>`. -/
theorem click_resolves_to_record {ρ : Type} (lib : RRuleLib ρ)
    (windowStart windowEnd : Int) (filterType : String) (schedule : Schedule)
    (hid : '-' ∉ schedule.id.data) (e : CalendarEvent)
    (he : e ∈ (expandSchedule lib windowStart windowEnd filterType schedule).events) :
    clickedBaseId e.id = schedule.id ∧ eventClick e.id = "/schedules/" ++ schedule.id := by
  have key : clickedBaseId e.id = schedule.id := by
    rcases mem_expandSchedule_events lib windowStart windowEnd filterType schedule e he
      with h | ⟨_, _, _, t, _, _, _, _, h⟩
    · rw [h]
      show String.mk _ = _
      apply String.ext
      exact takeWhile_not_dash_self _ hid
    · rw [h]
      show String.mk ((occurrenceId schedule.id t).data.takeWhile _) = _
      apply String.ext
      rw [occurrenceId_data]
      exact takeWhile_not_dash_append _ _ hid
  exact ⟨key, by unfold eventClick; rw [key]⟩

/-- Witness for C21 as amended: the second occurrence of the weekly Monday record. -/
theorem click_resolves_to_record_witness :
    ('-' ∉ weeklyRecord.id.data ∧
      occurrenceEvent (baseEvent weeklyRecord) 3600000 secondMonday ∈
        (expandSchedule mondayLib marchStart aprilStart "all" weeklyRecord).events) ∧
    clickedBaseId (occurrenceEvent (baseEvent weeklyRecord) 3600000 secondMonday).id =
      weeklyRecord.id ∧
    eventClick (occurrenceEvent (baseEvent weeklyRecord) 3600000 secondMonday).id =
      "/schedules/" ++ weeklyRecord.id :=
  ⟨by decide,
    click_resolves_to_record mondayLib marchStart aprilStart "all" weeklyRecord (by decide) _
      (by decide)⟩

/-! ## The request interceptor -/

/-- C22: when a token is stored (the stored value is present and not empty, the source's
own test), the configuration the request interceptor returns has the Authorization header
`Bearer ` followed by the token, every other header and every other field unchanged; when
no token is stored the configuration is returned unchanged. -/
theorem request_interceptor_adds_token (storedToken : Option String)
    (config : RequestConfig) :
    (∀ token, truthy? storedToken = some token →
      (requestInterceptor storedToken config).headers "Authorization" =
        some ("Bearer " ++ token) ∧
      (∀ name, name ≠ "Authorization" →
        (requestInterceptor storedToken config).headers name = config.headers name) ∧
      (requestInterceptor storedToken config).url = config.url ∧
      (requestInterceptor storedToken config).method = config.method ∧
      (requestInterceptor storedToken config).baseURL = config.baseURL ∧
      (requestInterceptor storedToken config).params = config.params ∧
      (requestInterceptor storedToken config).data = config.data) ∧
    (truthy? storedToken = none → requestInterceptor storedToken config = config) := by
  constructor
  · intro token h
    simp only [requestInterceptor, h]
    refine ⟨by simp, ?_, trivial, trivial, trivial, trivial, trivial⟩
    intro name hname
    simp [hname]
  · intro h
    simp only [requestInterceptor, h]

/-! ## Clearing invalid schedules -/

/-- C23, the code at the failing input: with one fetched schedule whose rule text is
rejected, `handleClearInvalidSchedules` issues no delete request, reports no success and
sets the failure message, because evaluating `api.delete` throws; with the identifier
`api` bound to a client whose requests succeed, the same body deletes that schedule and
reports one schedule cleared. -/
theorem clear_invalid_schedules_issues_no_delete :
    hasInvalidRule mondayLib malformedRecord = true ∧
    handleClearInvalidSchedules mondayLib (some "u1") (some [weeklyRecord, malformedRecord]) =
      { deleted := []
        success := none
        error := some
          "Failed to clear invalid schedules. Please try again or contact support." } ∧
    clearInvalidSchedulesWith (some fun _ => true) mondayLib (some "u1")
        (some [weeklyRecord, malformedRecord]) =
      { deleted := ["/schedules/S2"]
        success := some "Cleared 1 invalid schedules."
        error := none } := by
  decide

/-! ## The filter state -/

theorem filterStep_mem (prev : String) (action : FilterAction) :
    filterStep prev action = "all" ∨ filterStep prev action = "auto" ∨
      filterStep prev action = "manual" := by
  cases action
  · unfold filterStep
    split_ifs <;> simp
  · exact Or.inr (Or.inl rfl)
  · exact Or.inr (Or.inr rfl)
  · exact Or.inl rfl

/-- C25: starting from 'all', after any sequence of toggle presses and chip clicks the
filter is 'all', 'auto' or 'manual'; the toggle takes 'all' to 'auto', 'auto' to 'manual'
and 'manual' to 'all', so that three presses in a row bring each of the three values
back to itself. -/
theorem filter_stays_in_range (actions : List FilterAction) :
    (filterAfter actions = "all" ∨ filterAfter actions = "auto" ∨
      filterAfter actions = "manual") ∧
    filterStep "all" FilterAction.toggle = "auto" ∧
    filterStep "auto" FilterAction.toggle = "manual" ∧
    filterStep "manual" FilterAction.toggle = "all" ∧
    (∀ start, start = "all" ∨ start = "auto" ∨ start = "manual" →
      filterStep (filterStep (filterStep start FilterAction.toggle) FilterAction.toggle)
        FilterAction.toggle = start) := by
  refine ⟨?_, by decide, by decide, by decide, ?_⟩
  · unfold filterAfter
    induction actions using List.reverseRecOn with
    | nil => exact Or.inl rfl
    | append_singleton l a _ =>
      rw [List.foldl_append]
      exact filterStep_mem _ a
  · intro start h
    rcases h with h | h | h <;> subst h <;> decide

/-! ## Independence of the record's start -/

/-- C26 fails as stated: under filter 'all', the two records with the same rule text,
which parses but whose enumeration throws, and the same duration, one starting a day
after the other, are each emitted as their own base occurrence, and the two starts
differ. -/
theorem starts_follow_record_when_enumeration_throws :
    (truthy? nowhereRecord.recurrenceRule = some nowhereRule ∧
      truthy? nowhereTuesdayRecord.recurrenceRule = some nowhereRule ∧
      zonedLib.fromString nowhereRule = some none) ∧
    nowhereRecord.endTime - nowhereRecord.startTime =
      nowhereTuesdayRecord.endTime - nowhereTuesdayRecord.startTime ∧
    ((expandSchedule zonedLib marchStart aprilStart "all" nowhereRecord).events.map
        fun e => e.start) = [1709542800000] ∧
    ((expandSchedule zonedLib marchStart aprilStart "all" nowhereTuesdayRecord).events.map
        fun e => e.start) = [1709629200000] := by
  decide

/-- C26 as amended: in the recurring branch (filter 'all' or 'auto'), two records with
the same recurrenceRule, which parses and whose enumeration for the window returns, and
the same duration produce occurrences with identical starts and ends in the same order,
whatever their startTime: the starts and ends are those of the returned instants. -/
theorem starts_independent_of_record_start {ρ : Type} (lib : RRuleLib ρ)
    (windowStart windowEnd : Int) (filterType : String) (s₁ s₂ : Schedule)
    (text : String) (rule : ρ) (occurrences : List Int)
    (h₁ : truthy? s₁.recurrenceRule = some text)
    (h₂ : truthy? s₂.recurrenceRule = some text)
    (hparse : lib.fromString text = some rule)
    (henum : lib.between rule windowStart windowEnd true = some occurrences)
    (hduration : s₁.endTime - s₁.startTime = s₂.endTime - s₂.startTime)
    (hf : filterType = "all" ∨ filterType = "auto") :
    ((expandSchedule lib windowStart windowEnd filterType s₁).events.map
        fun e => (e.start, e.end_)) =
      ((expandSchedule lib windowStart windowEnd filterType s₂).events.map
        fun e => (e.start, e.end_)) ∧
    ((expandSchedule lib windowStart windowEnd filterType s₁).events.map
        fun e => (e.start, e.end_)) =
      occurrences.map fun t =>
        (formatISO t, formatISO (t + (s₁.endTime - s₁.startTime))) := by
  have hf2 : filterType ≠ "manual" := by
    rcases hf with hf | hf <;> subst hf <;> decide
  rw [expandSchedule_parsed lib windowStart windowEnd filterType s₁ text rule occurrences h₁
      hparse henum hf2,
    expandSchedule_parsed lib windowStart windowEnd filterType s₂ text rule occurrences h₂
      hparse henum hf2,
    hduration]
  simp only [List.map_map]
  exact ⟨rfl, rfl⟩

/-- Witness for C26 as amended: the Monday record and the record one day later, under
filter 'all'. -/
theorem starts_independent_of_record_start_witness :
    (truthy? weeklyRecord.recurrenceRule = some mondayRule ∧
      truthy? tuesdayRecord.recurrenceRule = some mondayRule ∧
      mondayLib.fromString mondayRule = some mondaySeries ∧
      mondayLib.between mondaySeries marchStart aprilStart true =
        some [1709542800000, 1710147600000, 1710752400000] ∧
      weeklyRecord.startTime ≠ tuesdayRecord.startTime) ∧
    ((expandSchedule mondayLib marchStart aprilStart "all" weeklyRecord).events.map
        fun e => (e.start, e.end_)) =
      ((expandSchedule mondayLib marchStart aprilStart "all" tuesdayRecord).events.map
        fun e => (e.start, e.end_)) ∧
    ((expandSchedule mondayLib marchStart aprilStart "all" weeklyRecord).events.map
        fun e => (e.start, e.end_)) =
      [1709542800000, 1710147600000, 1710752400000].map fun t =>
        (formatISO t, formatISO (t + (weeklyRecord.endTime - weeklyRecord.startTime))) :=
  ⟨by decide,
    starts_independent_of_record_start mondayLib marchStart aprilStart "all" weeklyRecord
      tuesdayRecord mondayRule mondaySeries _ (by decide) (by decide) (by decide) (by decide)
      (by decide) (Or.inl rfl)⟩

/-! ## Errors of the login request -/

/-- C27: every rejection produced by the response interceptor carries the server's
message when one is present (and not empty) and `An unexpected error occurred`
otherwise, and has no `response` property; so for every failed login request, whatever
response it got, `handleError` sets `Network error. Check your connection.`. -/
theorem login_failure_reads_as_network_error (error : AxiosError) :
    (responseRejected error).response = none ∧
    (∀ message,
      truthy? ((error.response.bind fun r => r.data).bind fun d => d.message) = some message →
        (responseRejected error).message = message) ∧
    (truthy? ((error.response.bind fun r => r.data).bind fun d => d.message) = none →
      (responseRejected error).message = "An unexpected error occurred") ∧
    signinFailure error = some "Network error. Check your connection." := by
  refine ⟨rfl, ?_, ?_, rfl⟩
  · intro message h
    simp [responseRejected, h]
  · intro h
    simp [responseRejected, h]

/-! ## Date validation -/

/-- C28: `validateDates` returns null exactly when both texts are non-empty, both parse
to valid dates and the end is strictly after the start; otherwise it returns the first
message that applies, in the order: both dates required, invalid format, end not after
start (an end equal to the start is rejected). -/
theorem validateDates_spec (parseDate : String → Option Int) (startText endText : String) :
    (validateDates parseDate startText endText = none ↔
      startText ≠ "" ∧ endText ≠ "" ∧
        ∃ s e, parseDate startText = some s ∧ parseDate endText = some e ∧ s < e) ∧
    ((startText = "" ∨ endText = "") →
      validateDates parseDate startText endText =
        some "Please select both start and end dates") ∧
    (startText ≠ "" → endText ≠ "" →
      (parseDate startText = none ∨ parseDate endText = none) →
      validateDates parseDate startText endText = some "Invalid date format") ∧
    (startText ≠ "" → endText ≠ "" →
      ∀ s e, parseDate startText = some s → parseDate endText = some e → e ≤ s →
      validateDates parseDate startText endText = some "End date must be after start date") := by
  refine ⟨?_, ?_, ?_, ?_⟩
  · unfold validateDates
    by_cases h1 : startText = "" ∨ endText = ""
    · rw [if_pos h1]
      constructor
      · intro h; exact Option.noConfusion h
      · rintro ⟨ha, hb, _⟩
        rcases h1 with h1 | h1
        · exact absurd h1 ha
        · exact absurd h1 hb
    · rw [if_neg h1]
      push_neg at h1
      cases hs : parseDate startText with
      | none => simp [h1.1]
      | some s =>
        cases he : parseDate endText with
        | none => simp [h1.1]
        | some e =>
          simp only [h1.1, h1.2, ne_eq, not_false_eq_true, true_and]
          by_cases hle : e ≤ s
          · simp [hle]
          · simp only [hle, if_false, true_iff]
            exact ⟨s, e, rfl, rfl, by omega⟩
  · intro h
    unfold validateDates
    rw [if_pos h]
  · intro ha hb h
    unfold validateDates
    rw [if_neg (by push_neg; exact ⟨ha, hb⟩)]
    rcases h with h | h
    · rw [h]
    · rw [h]
      cases parseDate startText <;> rfl
  · intro ha hb s e hs he hle
    unfold validateDates
    rw [if_neg (by push_neg; exact ⟨ha, hb⟩), hs, he]
    simp [hle]


/-! ## Study preferences -/

theorem isDigit_cases (c : Char) (h : c.isDigit = true) :
    c ∈ ['0', '1', '2', '3', '4', '5', '6', '7', '8', '9'] := by
  have h1 : 48 ≤ c.toNat ∧ c.toNat ≤ 57 := by
    simp only [Char.isDigit, Bool.and_eq_true, decide_eq_true_eq] at h
    have ha : (48 : UInt32) ≤ c.val := h.1
    have hb : c.val ≤ (57 : UInt32) := h.2
    exact ⟨ha, hb⟩
  have h2 : c = Char.ofNat c.toNat := (Char.ofNat_toNat c).symm
  obtain ⟨hlo, hhi⟩ := h1
  generalize c.toNat = n at h2 hlo hhi
  subst h2
  interval_cases n <;> decide

theorem digit_is_plain (c : Char) (h : c.isDigit = true) :
    isStrWhiteSpace c = false ∧ c ≠ '-' ∧ c ≠ '+' ∧ c ≠ ':' := by
  have hc := isDigit_cases c h
  simp only [List.mem_cons, List.mem_singleton, List.not_mem_nil, or_false] at hc
  rcases hc with rfl | rfl | rfl | rfl | rfl | rfl | rfl | rfl | rfl | rfl <;> decide

theorem padStart2_two_digits (a b : Char) (ha : a.isDigit = true) (hb : b.isDigit = true) :
    padStart2 (toString ((decimalValue [a, b] : Nat) : Int)) = String.mk [a, b] := by
  have hca := isDigit_cases a ha
  have hcb := isDigit_cases b hb
  simp only [List.mem_cons, List.mem_singleton, List.not_mem_nil, or_false] at hca hcb
  rcases hca with rfl | rfl | rfl | rfl | rfl | rfl | rfl | rfl | rfl | rfl <;>
    rcases hcb with rfl | rfl | rfl | rfl | rfl | rfl | rfl | rfl | rfl | rfl <;> decide

theorem head_of_takeWhile (p : Char → Bool) (l : List Char) (y : Char)
    (h : (l.takeWhile p).head? = some y) : l.head? = some y := by
  cases l with
  | nil => simp at h
  | cons x l =>
    rw [List.takeWhile_cons] at h
    split at h
    · simpa using h
    · simp at h

theorem takeWhile_isDigit_stop (t : List Char)
    (ht : ∀ x, t.head? = some x → x.isDigit = false) : t.takeWhile Char.isDigit = [] := by
  cases t with
  | nil => rfl
  | cons x t =>
    have := ht x rfl
    simp [List.takeWhile_cons, this]

theorem parseIntChars_two_digits (a b : Char) (t : List Char) (ha : a.isDigit = true)
    (hb : b.isDigit = true) (ht : ∀ x, t.head? = some x → x.isDigit = false) :
    parseIntChars (a :: b :: t) = some ((decimalValue [a, b] : Nat) : Int) := by
  obtain ⟨hws, hminus, hplus, -⟩ := digit_is_plain a ha
  have hdrop : (a :: b :: t).dropWhile isStrWhiteSpace = a :: b :: t := by
    rw [List.dropWhile_cons, hws]
    rfl
  have htake : (a :: b :: t).takeWhile Char.isDigit = [a, b] := by
    rw [List.takeWhile_cons, ha]
    simp only [if_true]
    rw [List.takeWhile_cons, hb]
    simp only [if_true]
    rw [takeWhile_isDigit_stop t ht]
  unfold parseIntChars
  simp only [hdrop, List.head?_cons, Option.some.injEq, hminus, hplus, or_self, if_false,
    htake]
  simp

theorem normalizeTime_padded (raw : String) (h : isPaddedTime raw = true) :
    normalizeTime raw = some (slice5 raw) := by
  unfold isPaddedTime at h
  split at h
  · rename_i a b c d rest hdata
    simp only [Bool.and_eq_true] at h
    obtain ⟨⟨⟨⟨ha, hb⟩, hc⟩, hd⟩, hrest⟩ := h
    have hrest2 : ∀ x, rest.head? = some x → x.isDigit = false := by
      intro x hx
      cases rest with
      | nil => simp at hx
      | cons y r =>
        simp only [List.head?_cons, Option.some.injEq] at hx
        subst hx
        simpa using hrest
    obtain ⟨-, -, -, hacolon⟩ := digit_is_plain a ha
    obtain ⟨-, -, -, hbcolon⟩ := digit_is_plain b hb
    obtain ⟨-, -, -, hccolon⟩ := digit_is_plain c hc
    obtain ⟨-, -, -, hdcolon⟩ := digit_is_plain d hd
    have hne : raw ≠ "" := by
      intro h0
      rw [h0] at hdata
      exact List.noConfusion hdata
    have hparts : timeParts raw =
        ([a, b], some (c :: d :: rest.takeWhile fun x => x != ':')) := by
      unfold timeParts
      rw [hdata]
      simp [List.takeWhile_cons, List.dropWhile_cons, hacolon, hbcolon, hccolon, hdcolon]
    have hhours := parseIntChars_two_digits a b [] ha hb (by simp)
    have hminutes := parseIntChars_two_digits c d (rest.takeWhile fun x => x != ':') hc hd
      (fun x hx => hrest2 x (head_of_takeWhile _ rest x hx))
    unfold normalizeTime
    rw [if_neg hne]
    simp only [hparts, parseInt, hhours, hminutes]
    rw [padStart2_two_digits a b ha hb, padStart2_two_digits c d hc hd]
    congr 1
    apply String.ext
    simp [slice5, hdata, String.data_append]
  · exact Bool.noConfusion h

theorem parseHHmm_range (text : String) (hours minutes : Nat)
    (h : parseHHmm text = some (hours, minutes)) : hours ≤ 23 ∧ minutes ≤ 59 := by
  unfold parseHHmm at h
  split at h
  · split at h
    · split at h
      · split at h
        · rename_i h1 _ _ _ _ h2
          have h3 := Option.some.inj h
          simp only [Prod.mk.injEq] at h3
          exact ⟨h3.1 ▸ h1, h3.2 ▸ h2.1⟩
        · exact Option.noConfusion h
      · exact Option.noConfusion h
    · exact Option.noConfusion h
  · exact Option.noConfusion h

theorem parse_eq_some (zone : TimeZone) (text : String) (now date : Int)
    (h : parse zone text now = some date) :
    ∃ hours minutes, parseHHmm text = some (hours, minutes) ∧
      date = setMinutes zone (setHours zone now hours) minutes := by
  unfold parse at h
  split at h
  · rename_i hours minutes hp
    exact ⟨hours, minutes, hp, (Option.some.inj h).symm⟩
  · exact Option.noConfusion h

/-- In a zone whose offset never changes, the Date built for a time of day is the start
of the local day of the reference date plus that time of day. -/
theorem setMinutes_setHours_fixed (zone : TimeZone) (c : Int)
    (hc : ∀ t, zone.offsetAt t = c ∧ zone.offsetOfLocal t = c) (now : Int)
    (hours minutes : Nat) :
    setMinutes zone (setHours zone now hours) minutes =
      zone.toLocal now / msPerDay * msPerDay + (60 * (hours : Int) + minutes) * 60000 - c := by
  have h1 : ∀ t, zone.offsetAt t = c := fun t => (hc t).1
  have h2 : ∀ t, zone.offsetOfLocal t = c := fun t => (hc t).2
  unfold setMinutes setHours TimeZone.toInstant TimeZone.toLocal
  simp only [h1, h2]
  unfold msPerDay
  omega

/-- C29 fails as stated: in the zone of New York on 2024-03-10, the day the clocks go
forward from 02:00 to 03:00, the form with start time `03:30` and end time `02:45` is
accepted, although the end time of day is before the start time of day: the Date built
for `02:45`, a reading the day skips, is 03:45 local time. -/
theorem end_before_start_accepted_at_clock_change :
    validatePreference newYork sundayNoon sundayNoon springForwardForm [] none = none ∧
    (normalizeTime springForwardForm.startTime = some "03:30" ∧
      normalizeTime springForwardForm.endTime = some "02:45") ∧
    (parseHHmm "03:30" = some (3, 30) ∧ parseHHmm "02:45" = some (2, 45)) ∧
    (parse newYork "03:30" sundayNoon = some 1710055800000 ∧
      parse newYork "02:45" sundayNoon = some 1710056700000) ∧
    ¬ (60 * 3 + 30 < 60 * 2 + 45) := by
  decide

/-- C29 as amended: whenever `validatePreference` returns null, the day is not empty, both
times normalise to texts that parse as valid `HH:mm` times (hours up to 23, minutes up to
59), the Date built for the end time on the local day of the validation is strictly after
the Date built for the start time, the slot duration is a positive integer, the
productivity score is a number between 0 and 1, and no stored preference with another id
has the same day; in a zone whose offset never changes, both Dates being built on the same
local day, the end time of day is strictly after the start time of day. -/
theorem validatePreference_sound (zone : TimeZone) (startNow endNow : Int)
    (newPreference : PreferenceForm)
    (existingPreferences : List StudyPreference) (preferenceId : Option String)
    (h : validatePreference zone startNow endNow newPreference existingPreferences
      preferenceId = none) :
    newPreference.day ≠ "" ∧
    (∃ startTime endTime startHours startMinutes endHours endMinutes,
      normalizeTime newPreference.startTime = some startTime ∧
      normalizeTime newPreference.endTime = some endTime ∧
      parseHHmm startTime = some (startHours, startMinutes) ∧
      parseHHmm endTime = some (endHours, endMinutes) ∧
      (startHours ≤ 23 ∧ startMinutes ≤ 59 ∧ endHours ≤ 23 ∧ endMinutes ≤ 59) ∧
      setMinutes zone (setHours zone startNow startHours) startMinutes <
        setMinutes zone (setHours zone endNow endHours) endMinutes ∧
      ((∃ c, ∀ t, zone.offsetAt t = c ∧ zone.offsetOfLocal t = c) →
        zone.toLocal startNow / msPerDay = zone.toLocal endNow / msPerDay →
        60 * startHours + startMinutes < 60 * endHours + endMinutes)) ∧
    (∃ n : Nat, 0 < n ∧ newPreference.preferredSlotDuration = JsNumber.finite n) ∧
    (∃ q : ℚ, newPreference.productivityScore = JsNumber.finite q ∧ 0 ≤ q ∧ q ≤ 1) ∧
    (∀ p ∈ existingPreferences, some p.id ≠ preferenceId → p.day ≠ newPreference.day) := by
  unfold validatePreference at h
  by_cases hday : newPreference.day = ""
  · rw [if_pos hday] at h
    exact Option.noConfusion h
  rw [if_neg hday] at h
  by_cases htimes : newPreference.startTime = "" ∨ newPreference.endTime = ""
  · rw [if_pos htimes] at h
    exact Option.noConfusion h
  rw [if_neg htimes] at h
  cases hs : normalizeTime newPreference.startTime with
  | none => rw [hs] at h; exact Option.noConfusion h
  | some startTime =>
    cases he : normalizeTime newPreference.endTime with
    | none => rw [hs, he] at h; exact Option.noConfusion h
    | some endTime =>
      rw [hs, he] at h
      simp only at h
      cases hps : parse zone startTime startNow with
      | none => rw [hps] at h; exact Option.noConfusion h
      | some start =>
        cases hpe : parse zone endTime endNow with
        | none => rw [hps, hpe] at h; exact Option.noConfusion h
        | some end_ =>
          rw [hps, hpe] at h
          simp only at h
          split_ifs at h with hle hdur hscore hexists
          obtain ⟨sh, sm, hsp, hsd⟩ := parse_eq_some zone startTime startNow start hps
          obtain ⟨eh, em, hep, hed⟩ := parse_eq_some zone endTime endNow end_ hpe
          obtain ⟨hsh, hsm⟩ := parseHHmm_range startTime sh sm hsp
          obtain ⟨heh, hem⟩ := parseHHmm_range endTime eh em hep
          refine ⟨hday, ⟨startTime, endTime, sh, sm, eh, em, rfl, rfl, hsp, hep,
            ⟨hsh, hsm, heh, hem⟩, by rw [← hsd, ← hed]; omega, ?_⟩, ?_, ?_, ?_⟩
          · rintro ⟨c, hc⟩ hsame
            rw [hsd, hed, setMinutes_setHours_fixed zone c hc startNow sh sm,
              setMinutes_setHours_fixed zone c hc endNow eh em, hsame] at hle
            omega
          · cases hd : newPreference.preferredSlotDuration with
            | finite q =>
              rw [hd] at hdur
              simp only [JsNumber.isInteger, JsNumber.atMostZero, Bool.or_eq_true,
                Bool.not_eq_true', decide_eq_false_iff_not, decide_eq_true_eq, not_or,
                not_not, not_le] at hdur
              obtain ⟨hden, hpos⟩ := hdur
              have hq : ((q.num : ℤ) : ℚ) = q := Rat.coe_int_num_of_den_eq_one hden
              have hnum : 0 < q.num := Rat.num_pos.mpr hpos
              refine ⟨q.num.toNat, by omega, ?_⟩
              congr 1
              rw [← hq]
              have : ((q.num.toNat : ℤ)) = q.num := Int.toNat_of_nonneg hnum.le
              exact_mod_cast this.symm
            | nan => rw [hd] at hdur; simp [JsNumber.isInteger] at hdur
            | negInf => rw [hd] at hdur; simp [JsNumber.isInteger] at hdur
            | posInf => rw [hd] at hdur; simp [JsNumber.isInteger] at hdur
          · cases hp : newPreference.productivityScore with
            | finite q =>
              rw [hp] at hscore
              simp only [JsNumber.belowZero, JsNumber.aboveOne, JsNumber.isNaN,
                Bool.or_eq_true, decide_eq_true_eq, not_or, not_lt, Bool.or_false] at hscore
              exact ⟨q, rfl, hscore.1, hscore.2⟩
            | nan => rw [hp] at hscore; simp [JsNumber.isNaN] at hscore
            | negInf => rw [hp] at hscore; simp [JsNumber.belowZero] at hscore
            | posInf => rw [hp] at hscore; simp [JsNumber.aboveOne] at hscore
          · intro p hp hid hsame
            apply hexists
            rw [List.any_eq_true]
            exact ⟨p, hp, by simp [hsame, hid]⟩

/-- Witness for C29 as amended: the form with zero-padded times and one stored preference
for another day, validated in UTC. -/
theorem validatePreference_sound_witness :
    validatePreference utc sundayNoon sundayNoon paddedForm [tuesdayPreference] none = none ∧
    paddedForm.day ≠ "" ∧
    (∃ startTime endTime startHours startMinutes endHours endMinutes,
      normalizeTime paddedForm.startTime = some startTime ∧
      normalizeTime paddedForm.endTime = some endTime ∧
      parseHHmm startTime = some (startHours, startMinutes) ∧
      parseHHmm endTime = some (endHours, endMinutes) ∧
      (startHours ≤ 23 ∧ startMinutes ≤ 59 ∧ endHours ≤ 23 ∧ endMinutes ≤ 59) ∧
      setMinutes utc (setHours utc sundayNoon startHours) startMinutes <
        setMinutes utc (setHours utc sundayNoon endHours) endMinutes ∧
      ((∃ c, ∀ t, utc.offsetAt t = c ∧ utc.offsetOfLocal t = c) →
        utc.toLocal sundayNoon / msPerDay = utc.toLocal sundayNoon / msPerDay →
        60 * startHours + startMinutes < 60 * endHours + endMinutes)) ∧
    (∃ n : Nat, 0 < n ∧ paddedForm.preferredSlotDuration = JsNumber.finite n) ∧
    (∃ q : ℚ, paddedForm.productivityScore = JsNumber.finite q ∧ 0 ≤ q ∧ q ≤ 1) ∧
    (∀ p ∈ [tuesdayPreference], some p.id ≠ (none : Option String) →
      p.day ≠ paddedForm.day) :=
  ⟨by decide,
    validatePreference_sound utc sundayNoon sundayNoon paddedForm [tuesdayPreference] none
      (by decide)⟩

/-- C30 fails as stated: the form with start time `9:30` is accepted, validation having
checked the normalised text `09:30`, and `handleSave` sends `9:30`. -/
theorem saved_time_differs_from_normalised :
    validatePreference utc sundayNoon sundayNoon unpaddedForm [tuesdayPreference] none =
      none ∧
    normalizeTime unpaddedForm.startTime = some "09:30" ∧
    handleSave utc sundayNoon sundayNoon unpaddedForm [tuesdayPreference] none "u1" =
      Except.ok { day := "MONDAY", startTime := "9:30", endTime := "17:00", userId := "u1" } :=
  ⟨by decide, by decide, rfl⟩

/-- C30 as amended: for every form state that `validatePreference` accepts and whose raw
start and end times have the form two digits, colon, two digits, followed by nothing or
by a character that is not a digit, the startTime and endTime that `handleSave` sends
are the normalised texts that validation checked. -/
theorem saved_times_are_normalised (zone : TimeZone) (startNow endNow : Int)
    (newPreference : PreferenceForm)
    (existingPreferences : List StudyPreference) (preferenceId : Option String)
    (userId : String)
    (haccept : validatePreference zone startNow endNow newPreference existingPreferences
      preferenceId = none)
    (hstart : isPaddedTime newPreference.startTime = true)
    (hend : isPaddedTime newPreference.endTime = true) :
    ∃ data, handleSave zone startNow endNow newPreference existingPreferences preferenceId
        userId = Except.ok data ∧
      normalizeTime newPreference.startTime = some data.startTime ∧
      normalizeTime newPreference.endTime = some data.endTime := by
  unfold handleSave
  rw [haccept]
  exact ⟨_, rfl, normalizeTime_padded _ hstart, normalizeTime_padded _ hend⟩

/-- Witness for C30 as amended: the form with the times `09:30` and `17:00:00`. -/
theorem saved_times_are_normalised_witness :
    (validatePreference utc sundayNoon sundayNoon paddedForm [tuesdayPreference] none =
        none ∧
      isPaddedTime paddedForm.startTime = true ∧ isPaddedTime paddedForm.endTime = true) ∧
    ∃ data, handleSave utc sundayNoon sundayNoon paddedForm [tuesdayPreference] none "u1" =
        Except.ok data ∧
      normalizeTime paddedForm.startTime = some data.startTime ∧
      normalizeTime paddedForm.endTime = some data.endTime :=
  ⟨by decide,
    saved_times_are_normalised utc sundayNoon sundayNoon paddedForm [tuesdayPreference] none
      "u1" (by decide) (by decide) (by decide)⟩


/-! ## The calendar -/

theorem dayFromYear_succ (y : Int) : dayFromYear (y + 1) = dayFromYear y + daysInYear y := by
  unfold dayFromYear daysInYear
  split_ifs <;> omega

theorem inLeapYear_range (y : Int) : inLeapYear y = 0 ∨ inLeapYear y = 1 := by
  unfold inLeapYear daysInYear
  split_ifs <;> omega

theorem dayFromYear_mono {a b : Int} (h : a ≤ b) : dayFromYear a ≤ dayFromYear b := by
  unfold dayFromYear; omega

theorem estimate_bounds (day : Int) :
    dayFromYear (1970 + 400 * day / 146097 - 1) ≤ day ∧
      day < dayFromYear (1970 + 400 * day / 146097 + 2) := by
  unfold dayFromYear
  constructor <;> omega

theorem yearFromDay_spec (day : Int) :
    dayFromYear (yearFromDay day) ≤ day ∧ day < dayFromYear (yearFromDay day + 1) := by
  have h := estimate_bounds day
  unfold yearFromDay
  simp only
  split_ifs with h1 h2
  · refine ⟨h1, ?_⟩
    have : (1970 + 400 * day / 146097 + 1 + 1) = (1970 + 400 * day / 146097 + 2) := by ring
    rw [this]; exact h.2
  · exact ⟨h2, by omega⟩
  · refine ⟨h.1, ?_⟩
    have : (1970 + 400 * day / 146097 - 1 + 1) = (1970 + 400 * day / 146097) := by ring
    rw [this]; omega

theorem yearFromDay_unique (day y : Int) (h1 : dayFromYear y ≤ day)
    (h2 : day < dayFromYear (y + 1)) : yearFromDay day = y := by
  have h := yearFromDay_spec day
  by_contra hne
  rcases lt_or_gt_of_ne hne with hlt | hgt
  · have := dayFromYear_mono (show yearFromDay day + 1 ≤ y by omega)
    omega
  · have := dayFromYear_mono (show y + 1 ≤ yearFromDay day by omega)
    omega

theorem monthOfDayWithinYear_cases (w L : Int) :
    (w < 31 ∧ monthOfDayWithinYear w L = 0) ∨
    (31 ≤ w ∧ w < 59 + L ∧ monthOfDayWithinYear w L = 1) ∨
    (59 + L ≤ w ∧ w < 90 + L ∧ monthOfDayWithinYear w L = 2) ∨
    (90 + L ≤ w ∧ w < 120 + L ∧ monthOfDayWithinYear w L = 3) ∨
    (120 + L ≤ w ∧ w < 151 + L ∧ monthOfDayWithinYear w L = 4) ∨
    (151 + L ≤ w ∧ w < 181 + L ∧ monthOfDayWithinYear w L = 5) ∨
    (181 + L ≤ w ∧ w < 212 + L ∧ monthOfDayWithinYear w L = 6) ∨
    (212 + L ≤ w ∧ w < 243 + L ∧ monthOfDayWithinYear w L = 7) ∨
    (243 + L ≤ w ∧ w < 273 + L ∧ monthOfDayWithinYear w L = 8) ∨
    (273 + L ≤ w ∧ w < 304 + L ∧ monthOfDayWithinYear w L = 9) ∨
    (304 + L ≤ w ∧ w < 334 + L ∧ monthOfDayWithinYear w L = 10) ∨
    (334 + L ≤ w ∧ monthOfDayWithinYear w L = 11) := by
  unfold monthOfDayWithinYear
  by_cases h0 : w < 31
  · rw [if_pos h0]
    exact Or.inl ⟨h0, rfl⟩
  rw [if_neg h0]
  by_cases h1 : w < 59 + L
  · rw [if_pos h1]
    exact Or.inr (Or.inl ⟨by omega, h1, rfl⟩)
  rw [if_neg h1]
  by_cases h2 : w < 90 + L
  · rw [if_pos h2]
    exact Or.inr (Or.inr (Or.inl ⟨by omega, h2, rfl⟩))
  rw [if_neg h2]
  by_cases h3 : w < 120 + L
  · rw [if_pos h3]
    exact Or.inr (Or.inr (Or.inr (Or.inl ⟨by omega, h3, rfl⟩)))
  rw [if_neg h3]
  by_cases h4 : w < 151 + L
  · rw [if_pos h4]
    exact Or.inr (Or.inr (Or.inr (Or.inr (Or.inl ⟨by omega, h4, rfl⟩))))
  rw [if_neg h4]
  by_cases h5 : w < 181 + L
  · rw [if_pos h5]
    exact Or.inr (Or.inr (Or.inr (Or.inr (Or.inr (Or.inl ⟨by omega, h5, rfl⟩)))))
  rw [if_neg h5]
  by_cases h6 : w < 212 + L
  · rw [if_pos h6]
    exact Or.inr (Or.inr (Or.inr (Or.inr (Or.inr (Or.inr (Or.inl ⟨by omega, h6, rfl⟩))))))
  rw [if_neg h6]
  by_cases h7 : w < 243 + L
  · rw [if_pos h7]
    exact Or.inr (Or.inr (Or.inr (Or.inr (Or.inr (Or.inr (Or.inr (Or.inl ⟨by omega, h7, rfl⟩)))))))
  rw [if_neg h7]
  by_cases h8 : w < 273 + L
  · rw [if_pos h8]
    exact Or.inr (Or.inr (Or.inr (Or.inr (Or.inr (Or.inr (Or.inr (Or.inr (Or.inl ⟨by omega, h8, rfl⟩))))))))
  rw [if_neg h8]
  by_cases h9 : w < 304 + L
  · rw [if_pos h9]
    exact Or.inr (Or.inr (Or.inr (Or.inr (Or.inr (Or.inr (Or.inr (Or.inr (Or.inr (Or.inl ⟨by omega, h9, rfl⟩)))))))))
  rw [if_neg h9]
  by_cases h10 : w < 334 + L
  · rw [if_pos h10]
    exact Or.inr (Or.inr (Or.inr (Or.inr (Or.inr (Or.inr (Or.inr (Or.inr (Or.inr (Or.inr (Or.inl ⟨by omega, h10, rfl⟩))))))))))
  rw [if_neg h10]
  exact Or.inr (Or.inr (Or.inr (Or.inr (Or.inr (Or.inr (Or.inr (Or.inr (Or.inr (Or.inr (Or.inr (⟨by omega, rfl⟩)))))))))))

theorem monthOfDayWithinYear_range (w L : Int) :
    0 ≤ monthOfDayWithinYear w L ∧ monthOfDayWithinYear w L ≤ 11 := by
  have h := monthOfDayWithinYear_cases w L
  omega

theorem monthFromDay_range (day : Int) : 0 ≤ monthFromDay day ∧ monthFromDay day ≤ 11 :=
  monthOfDayWithinYear_range _ _

theorem monthOfDayWithinYear_eq (L m d : Int) (hL : L = 0 ∨ L = 1) (h0 : 0 ≤ m)
    (h11 : m ≤ 11) (hd1 : 1 ≤ d)
    (hd : d ≤ daysBeforeMonth L (m + 1) - daysBeforeMonth L m) :
    monthOfDayWithinYear (daysBeforeMonth L m + d - 1) L = m := by
  have h := monthOfDayWithinYear_cases (daysBeforeMonth L m + d - 1) L
  interval_cases m <;> norm_num [daysBeforeMonth] at hd h ⊢ <;> omega

theorem makeDay_within (y m d : Int) (h0 : 0 ≤ m) (h11 : m ≤ 11) :
    makeDay y m d = dayFromYear y + daysBeforeMonth (inLeapYear y) m + d - 1 := by
  unfold makeDay
  have h1 : m / 12 = 0 := by omega
  have h2 : m % 12 = m := by omega
  rw [h1, h2, add_zero]

theorem makeDay_carry (y m d : Int) (h0 : 12 ≤ m) (h11 : m ≤ 23) :
    makeDay y m d =
      dayFromYear (y + 1) + daysBeforeMonth (inLeapYear (y + 1)) (m - 12) + d - 1 := by
  unfold makeDay
  have h1 : m / 12 = 1 := by omega
  have h2 : m % 12 = m - 12 := by omega
  rw [h1, h2]

/-- Reading back a day made from a year, a month and a day of that month gives the same
year, month and day. -/
theorem fields_of_makeDay (y m d : Int) (h0 : 0 ≤ m) (h11 : m ≤ 11) (hd1 : 1 ≤ d)
    (hd : d ≤ daysBeforeMonth (inLeapYear y) (m + 1) - daysBeforeMonth (inLeapYear y) m) :
    yearFromDay (makeDay y m d) = y ∧ monthFromDay (makeDay y m d) = m ∧
      dateFromDay (makeDay y m d) = d := by
  rw [makeDay_within y m d h0 h11]
  have hleap := inLeapYear_range y
  have hsucc := dayFromYear_succ y
  have hlen : daysInYear y = 365 + inLeapYear y := by unfold inLeapYear; omega
  generalize hL : inLeapYear y = L at *
  have hyear : yearFromDay (dayFromYear y + daysBeforeMonth L m + d - 1) = y := by
    apply yearFromDay_unique
    · interval_cases m <;> norm_num [daysBeforeMonth] at hd ⊢ <;> omega
    · rw [hsucc, hlen]
      interval_cases m <;> norm_num [daysBeforeMonth] at hd ⊢ <;> omega
  have hmonth : monthFromDay (dayFromYear y + daysBeforeMonth L m + d - 1) = m := by
    unfold monthFromDay
    rw [hyear, hL]
    have hw : dayFromYear y + daysBeforeMonth L m + d - 1 - dayFromYear y =
        daysBeforeMonth L m + d - 1 := by ring
    rw [hw]
    exact monthOfDayWithinYear_eq L m d hleap h0 h11 hd1 hd
  refine ⟨hyear, hmonth, ?_⟩
  unfold dateFromDay
  rw [hyear, hmonth, hL]
  omega

theorem month_length_ge (L m : Int) (hL : L = 0 ∨ L = 1) (h0 : 0 ≤ m) (h11 : m ≤ 11) :
    28 ≤ daysBeforeMonth L (m + 1) - daysBeforeMonth L m := by
  interval_cases m <;> norm_num [daysBeforeMonth]
  omega

theorem daysInYear_eq (y : Int) : daysInYear y = 365 + inLeapYear y := by
  unfold inLeapYear; omega

/-- The month after month `m` of year `y`: the day before the start of the month after
it is its last day, and its first day comes one month length after the first day of
month `m`. -/
theorem next_month (y m : Int) (h0 : 0 ≤ m) (h11 : m ≤ 11) :
    ∃ y' m', 0 ≤ m' ∧ m' ≤ 11 ∧
      makeDay y (m + 1 + 1) 0 =
        makeDay y' m'
          (daysBeforeMonth (inLeapYear y') (m' + 1) - daysBeforeMonth (inLeapYear y') m') ∧
      makeDay y' m' 1 =
        makeDay y m 1 +
          (daysBeforeMonth (inLeapYear y) (m + 1) - daysBeforeMonth (inLeapYear y) m) := by
  have hsucc := dayFromYear_succ y
  have hlen := daysInYear_eq y
  by_cases h9 : m ≤ 9
  · refine ⟨y, m + 1, by omega, by omega, ?_, ?_⟩
    · rw [makeDay_within y (m + 1 + 1) 0 (by omega) (by omega),
        makeDay_within y (m + 1) _ (by omega) (by omega)]
      omega
    · rw [makeDay_within y (m + 1) 1 (by omega) (by omega),
        makeDay_within y m 1 h0 h11]
      omega
  · by_cases h10 : m = 10
    · subst h10
      refine ⟨y, 11, by omega, by omega, ?_, ?_⟩
      · rw [makeDay_carry y (10 + 1 + 1) 0 (by omega) (by omega),
          makeDay_within y 11 _ (by omega) (by omega)]
        norm_num [daysBeforeMonth]
        omega
      · rw [makeDay_within y 11 1 (by omega) (by omega),
          makeDay_within y 10 1 (by omega) (by omega)]
        norm_num [daysBeforeMonth]
        omega
    · have h : m = 11 := by omega
      subst h
      refine ⟨y + 1, 0, by omega, by omega, ?_, ?_⟩
      · rw [makeDay_carry y (11 + 1 + 1) 0 (by omega) (by omega),
          makeDay_within (y + 1) 0 _ (by omega) (by omega)]
        norm_num [daysBeforeMonth]
      · rw [makeDay_within (y + 1) 0 1 (by omega) (by omega),
          makeDay_within y 11 1 (by omega) (by omega)]
        norm_num [daysBeforeMonth]
        omega

theorem month_length_le (L m : Int) (hL : L = 0 ∨ L = 1) (h0 : 0 ≤ m) (h11 : m ≤ 11) :
    daysBeforeMonth L (m + 1) - daysBeforeMonth L m ≤ 31 := by
  interval_cases m <;> norm_num [daysBeforeMonth]
  omega

theorem makeDay_date (y m d : Int) : makeDay y m d = makeDay y m 1 + (d - 1) := by
  unfold makeDay
  omega

/-- Reading a day as year, month and day of the month, and making the day again. -/
theorem fields_of_day (z : Int) :
    1 ≤ dateFromDay z ∧
    dateFromDay z ≤
      daysBeforeMonth (inLeapYear (yearFromDay z)) (monthFromDay z + 1) -
        daysBeforeMonth (inLeapYear (yearFromDay z)) (monthFromDay z) ∧
    makeDay (yearFromDay z) (monthFromDay z) (dateFromDay z) = z := by
  have hspec := yearFromDay_spec z
  have hsucc := dayFromYear_succ (yearFromDay z)
  have hlen := daysInYear_eq (yearFromDay z)
  have hL := inLeapYear_range (yearFromDay z)
  have hm := monthFromDay_range z
  have hcases := monthOfDayWithinYear_cases (z - dayFromYear (yearFromDay z))
    (inLeapYear (yearFromDay z))
  rw [makeDay_within _ _ _ hm.1 hm.2]
  unfold dateFromDay
  have hmdef : monthOfDayWithinYear (z - dayFromYear (yearFromDay z))
    (inLeapYear (yearFromDay z)) = monthFromDay z := rfl
  rw [hmdef] at hcases
  generalize monthFromDay z = m at *
  generalize inLeapYear (yearFromDay z) = L at *
  generalize dayFromYear (yearFromDay z + 1) = b at *
  generalize dayFromYear (yearFromDay z) = a at *
  rcases hcases with ⟨h1, h2⟩ | ⟨h1, h2, h3⟩ | ⟨h1, h2, h3⟩ | ⟨h1, h2, h3⟩ | ⟨h1, h2, h3⟩ |
    ⟨h1, h2, h3⟩ | ⟨h1, h2, h3⟩ | ⟨h1, h2, h3⟩ | ⟨h1, h2, h3⟩ | ⟨h1, h2, h3⟩ | ⟨h1, h2, h3⟩ |
    ⟨h1, h2⟩ <;> subst m <;> norm_num [daysBeforeMonth] <;> omega

/-- One month added to any date gives a date at least 21 days later, in every zone whose
offsets stay within a day. -/
theorem addMonths_one_ge (zone : TimeZone)
    (hzone : ∀ t, (-msPerDay ≤ zone.offsetAt t ∧ zone.offsetAt t ≤ msPerDay) ∧
      (-msPerDay ≤ zone.offsetOfLocal t ∧ zone.offsetOfLocal t ≤ msPerDay))
    (date : Int) : date + 21 * msPerDay ≤ addMonths zone date 1 := by
  have hm := monthFromDay_range (zone.toLocal date / msPerDay)
  obtain ⟨hd1, hdD, hz⟩ := fields_of_day (zone.toLocal date / msPerDay)
  have hL := inLeapYear_range (yearFromDay (zone.toLocal date / msPerDay))
  have hD := month_length_ge _ _ hL hm.1 hm.2
  obtain ⟨y', m', h0', h11', hend, hstart⟩ :=
    next_month (yearFromDay (zone.toLocal date / msPerDay))
      (monthFromDay (zone.toLocal date / msPerDay)) hm.1 hm.2
  have hL' := inLeapYear_range y'
  have hD' := month_length_ge _ _ hL' h0' h11'
  have hlin1 := makeDay_date (yearFromDay (zone.toLocal date / msPerDay))
    (monthFromDay (zone.toLocal date / msPerDay)) (dateFromDay (zone.toLocal date / msPerDay))
  have hlin2 := makeDay_date y' m'
    (daysBeforeMonth (inLeapYear y') (m' + 1) - daysBeforeMonth (inLeapYear y') m')
  have hdate : zone.toLocal date = date + zone.offsetAt date := rfl
  have hoff := (hzone date).1
  unfold addMonths setMonth setFullYear getDate getMonth getFullYear TimeZone.toInstant
  rw [if_neg (by decide)]
  generalize hWdef : makeDay (yearFromDay (zone.toLocal date / msPerDay))
    (monthFromDay (zone.toLocal date / msPerDay) + 1 + 1) 0 * msPerDay +
      zone.toLocal date % msPerDay = W
  have ho1 := (hzone W).2
  generalize hE0def : W - zone.offsetOfLocal W = E0
  split_ifs with hbranch
  · unfold msPerDay at *
    omega
  · have hm2 := monthFromDay_range (zone.toLocal E0 / msPerDay)
    obtain ⟨hd12, hdD2, hz2⟩ := fields_of_day (zone.toLocal E0 / msPerDay)
    have hL2 := inLeapYear_range (yearFromDay (zone.toLocal E0 / msPerDay))
    have hD2 := month_length_le _ _ hL2 hm2.1 hm2.2
    have hlin3 := makeDay_date (yearFromDay (zone.toLocal E0 / msPerDay))
      (monthFromDay (zone.toLocal E0 / msPerDay)) (dateFromDay (zone.toLocal E0 / msPerDay))
    have hlin4 := makeDay_date (yearFromDay (zone.toLocal E0 / msPerDay))
      (monthFromDay (zone.toLocal E0 / msPerDay)) (dateFromDay (zone.toLocal date / msPerDay))
    have hlocE : zone.toLocal E0 = E0 + zone.offsetAt E0 := rfl
    have hoffE := (hzone E0).1
    generalize hW2 : makeDay (yearFromDay (zone.toLocal E0 / msPerDay))
      (monthFromDay (zone.toLocal E0 / msPerDay)) (dateFromDay (zone.toLocal date / msPerDay)) *
        msPerDay + zone.toLocal date % msPerDay = W2
    have ho2 := (hzone W2).2
    unfold msPerDay at *
    omega

/-- The offsets of the zone of New York stay within a day. -/
theorem newYork_offsets (t : Int) :
    (-msPerDay ≤ newYork.offsetAt t ∧ newYork.offsetAt t ≤ msPerDay) ∧
      (-msPerDay ≤ newYork.offsetOfLocal t ∧ newYork.offsetOfLocal t ≤ msPerDay) := by
  unfold newYork msPerDay
  simp only
  constructor <;> split_ifs <;> omega

/-- C24: for every current instant and every local zone, with or without clock changes,
whose offsets from UTC stay within a day (as the offsets of every zone in use do), the
instant of `defaultEnd` (one month added to the start of the current month) is strictly
later than the instant of `defaultStart` (the start of the current month); the two are
at least 20 days apart. -/
theorem default_window_nonempty (zone : TimeZone) (now : Int)
    (hzone : ∀ t, (-msPerDay ≤ zone.offsetAt t ∧ zone.offsetAt t ≤ msPerDay) ∧
      (-msPerDay ≤ zone.offsetOfLocal t ∧ zone.offsetOfLocal t ≤ msPerDay)) :
    defaultStart zone now < defaultEnd zone now ∧
      defaultStart zone now + 20 * msPerDay ≤ defaultEnd zone now := by
  have h := addMonths_one_ge zone hzone (startOfMonth zone now)
  unfold defaultStart defaultEnd
  generalize startOfMonth zone now = s at h ⊢
  generalize addMonths zone s 1 = e at h ⊢
  unfold formatISO
  unfold msPerDay at h ⊢
  omega

/-- Witness for C24: in the zone of New York on 2024-03-10, a month with a clock change,
the window runs from 2024-03-01 00:00 local time (05:00 UTC) to 2024-04-01 00:00 local
time (04:00 UTC). -/
theorem default_window_nonempty_witness :
    ((∀ t, (-msPerDay ≤ newYork.offsetAt t ∧ newYork.offsetAt t ≤ msPerDay) ∧
        (-msPerDay ≤ newYork.offsetOfLocal t ∧ newYork.offsetOfLocal t ≤ msPerDay)) ∧
      defaultStart newYork sundayNoon = 1709269200000 ∧
      defaultEnd newYork sundayNoon = 1711944000000) ∧
    defaultStart newYork sundayNoon < defaultEnd newYork sundayNoon ∧
      defaultStart newYork sundayNoon + 20 * msPerDay ≤ defaultEnd newYork sundayNoon :=
  ⟨⟨newYork_offsets, by decide, by decide⟩,
    default_window_nonempty newYork sundayNoon newYork_offsets⟩

end Schedules
